import Mathlib

/-!
# Verification of the knodemy ai-agent Script-to-Timed-Audio pipeline

Shallow embedding of the core text-processing and audio-assembly code of the
repository (principally `src/core/speech_generator.py`, `src/core/content_processor.py`
and the batch orchestrator in `app.py`), together with proofs and refutations of
the specification's claims.

Strings are embedded as `List Char`.  Python regular-expression substitutions are
embedded as explicit character scanners that reproduce the leftmost / lazy / greedy
semantics of the concrete patterns used by the source.  Scanners that consume a
variable number of characters per step take an explicit fuel argument; every call
site passes `length + 1`, which is always sufficient because each step consumes at
least one character.  Python floats are modelled as exact rationals.
-/

namespace KnodemyAgent

/-- ASCII whitespace, as recognised by Python `str.strip()` and the regex class `\s`. -/
def isPyWs (c : Char) : Bool :=
  c == ' ' || c == '\t' || c == '\n' || c == '\r' || c == '\x0b' || c == '\x0c'

/-- Python `str.strip()`: drop ASCII whitespace from both ends. -/
def pyStrip (cs : List Char) : List Char :=
  ((cs.dropWhile isPyWs).reverse.dropWhile isPyWs).reverse

/-- Embeds `pat.isPrefixOf cs`, named for readability: Python `str.startswith`. -/
def startsWith (pat cs : List Char) : Bool :=
  pat.isPrefixOf cs

/-- Python `str.endswith`. -/
def endsWith (pat cs : List Char) : Bool :=
  pat.isSuffixOf cs

/-- Python `pat in s` (substring containment). -/
def containsSub (pat : List Char) : List Char → Bool
  | [] => pat.isPrefixOf ([] : List Char)
  | c :: rest => pat.isPrefixOf (c :: rest) || containsSub pat rest

/-- Python `str.split(sep)` for a one-character separator. -/
def splitChar (sep : Char) : List Char → List (List Char)
  | [] => [[]]
  | c :: rest =>
    if c = sep then [] :: splitChar sep rest
    else
      match splitChar sep rest with
      | [] => [[c]]
      | p :: ps => (c :: p) :: ps

/-- Python `int(digit-string)` for a non-empty run of decimal digits. -/
def digitsToNat (ds : List Char) : Nat :=
  ds.foldl (fun n c => n * 10 + (c.toNat - '0'.toNat)) 0

/-- Python ASCII `str.lower()` on one character (`Char.toLower` is the ASCII map). -/
def pyLowerChar (c : Char) : Char := c.toLower

/-- Python `str.lower()`. -/
def pyLower (cs : List Char) : List Char := cs.map pyLowerChar

/-! ## Document Fetcher / URL validation (`src/core/content_processor.py`) -/

/-- Embeds `ContentProcessor.is_valid_pdf_url`: accept only non-empty, non-`'NULL'` strings
whose lowercased, stripped form starts with `http://` or `https://` and ends with
`.pdf`. -/
def is_valid_pdf_url (url : List Char) : Bool :=
  if url = [] || url = "NULL".data then false
  else
    let u := pyStrip (pyLower url)
    (startsWith "http://".data u || startsWith "https://".data u)
      && endsWith ".pdf".data u

/-- Abstract collaborator outcomes for `generate_script_pdf_bytes`: the download,
text extraction and LLM synthesis steps are external effects, modelled as
function parameters. -/
def generate_script_pdf_bytes
    (download : List Char → Except (List Char) (List Nat))
    (extract : List Nat → Except (List Char) (List Char))
    (synthesize : List Char → Except (List Char) (List Char))
    (url : List Char) : Except (List Char) (List Char) :=
  if !(is_valid_pdf_url url) then
    .error ("Invalid PDF URL: ".data ++ url)
  else do
    let bytes ← download url
    let extracted ← extract bytes
    if extracted.length < 100 then
      .error "PDF content too short to build a meaningful script".data
    else synthesize extracted

/-! ## Segment parser (`src/core/speech_generator.py`, `parse_lecture_segments`) -/

/-- The metadata test applied to a stripped line by `clean_script_metadata`. -/
def metadataLine (ls : List Char) : Bool :=
  startsWith "Lecture Script:".data ls
    || startsWith "Generated for:".data ls
    || startsWith "Source:".data ls
    || startsWith "Generated:".data ls
    || startsWith "---".data ls
    || containsSub "Generated:".data ls
    || containsSub "Source:".data ls
    || ls == []

/-- The line loop of `clean_script_metadata`: `i` is the running index, `skip`
the `skip_lines` flag.  Note the faithful quirk: once `i` reaches 10 with
`skip` still true, no later line is ever emitted. -/
def cleanMetaAux : List (List Char) → Nat → Bool → List (List Char)
  | [], _, _ => []
  | line :: rest, i, skip =>
    if skip && decide (i < 10) then
      if metadataLine (pyStrip line) then cleanMetaAux rest (i + 1) skip
      else line :: cleanMetaAux rest (i + 1) false
    else if skip then cleanMetaAux rest (i + 1) skip
    else line :: cleanMetaAux rest (i + 1) false

/-- Embeds `clean_script_metadata`: drop leading metadata lines, rejoin, strip. -/
def clean_script_metadata (s : List Char) : List Char :=
  pyStrip (List.intercalate ['\n'] (cleanMetaAux (splitChar '\n' s) 0 true))

/-- Attempt to match `([^:]*?):\s*(\d+)[-–](\d+)\s*minutes?\]` directly after an
opening `[`.  Returns the captured label and the two numeric bounds. -/
def timingMatchAt (cs : List Char) : Option (List Char × Nat × Nat) :=
  let label := cs.takeWhile (fun c => c != ':')
  match cs.dropWhile (fun c => c != ':') with
  | ':' :: r2 =>
    let r3 := r2.dropWhile isPyWs
    let d1 := r3.takeWhile Char.isDigit
    let r4 := r3.dropWhile Char.isDigit
    if d1 = [] then none
    else
      match r4 with
      | dash :: r5 =>
        if dash == '-' || dash == '–' then
          let d2 := r5.takeWhile Char.isDigit
          let r6 := r5.dropWhile Char.isDigit
          if d2 = [] then none
          else
            let r7 := r6.dropWhile isPyWs
            if startsWith "minutes]".data r7 || startsWith "minute]".data r7 then
              some (label, digitsToNat d1, digitsToNat d2)
            else none
        else none
      | [] => none
  | _ => none

/-- Embeds `re.search(r'\[([^:]*?):\s*(\d+)[-–](\d+)\s*minutes?\]', line)`: try each `[`
from the left; the first position at which the tail matches wins. -/
def timingSearch : List Char → Option (List Char × Nat × Nat)
  | [] => none
  | c :: rest =>
    if c = '[' then
      match timingMatchAt rest with
      | some r => some r
      | none => timingSearch rest
    else timingSearch rest

/-- Attempt to match `(\d+)[-–](\d+)\s*minutes?\]` directly after an opening `[`.
Also returns the remaining characters after the closing `]` (used by the
content-cleaning scanner). -/
def simpleTimingAt (cs : List Char) : Option (Nat × Nat × List Char) :=
  let d1 := cs.takeWhile Char.isDigit
  match cs.dropWhile Char.isDigit with
  | dash :: r2 =>
    if d1 ≠ [] && (dash == '-' || dash == '–') then
      let d2 := r2.takeWhile Char.isDigit
      let r3 := r2.dropWhile Char.isDigit
      if d2 = [] then none
      else
        let r4 := r3.dropWhile isPyWs
        if startsWith "minutes]".data r4 then
          some (digitsToNat d1, digitsToNat d2, r4.drop "minutes]".data.length)
        else if startsWith "minute]".data r4 then
          some (digitsToNat d1, digitsToNat d2, r4.drop "minute]".data.length)
        else none
    else none
  | [] => none

/-- Embeds `re.search(r'\[(\d+)[-–](\d+)\s*minutes?\]', line)`. -/
def simpleTimingSearch : List Char → Option (Nat × Nat)
  | [] => none
  | c :: rest =>
    if c = '[' then
      match simpleTimingAt rest with
      | some (a, b, _) => some (a, b)
      | none => simpleTimingSearch rest
    else simpleTimingSearch rest

/-- Embeds `re.search(r'\[.*?minutes?\]', line)` as a Boolean: the pattern matches iff
the text after the first `[` contains `minute]` or `minutes]`. -/
def hasMinuteMarker : List Char → Bool
  | [] => false
  | c :: rest =>
    if c = '[' then containsSub "minute]".data rest || containsSub "minutes]".data rest
    else hasMinuteMarker rest

/-- The `LectureSegment` dataclass. -/
structure LectureSegment where
  title : List Char
  content : List Char
  duration_min : Nat
  duration_max : Nat
  order : Nat
  segment_type : List Char
  deriving DecidableEq, Repr

/-- Embeds `_determine_segment_type`: keyword classification of a segment title. -/
def determine_segment_type (title : List Char) : List Char :=
  let t := pyLower title
  if containsSub "hook".data t || containsSub "opening".data t
      || containsSub "introduction".data t then "hook".data
  else if containsSub "objective".data t || containsSub "learning".data t
      || containsSub "goals".data t then "objectives".data
  else if containsSub "practice".data t || containsSub "application".data t
      || containsSub "activity".data t then "practice".data
  else if containsSub "recap".data t || containsSub "takeaway".data t
      || containsSub "conclusion".data t || containsSub "summary".data t then "recap".data
  else "content".data

/-- The mutable state of the `parse_lecture_segments` line loop. -/
structure ParseState where
  segments : List LectureSegment
  currentSegment : Option LectureSegment
  currentContent : List (List Char)
  segmentOrder : Nat
  deriving DecidableEq, Repr

/-- Close the open segment: `'\n'.join(current_content).strip()` becomes its content. -/
def closeSegment (st : ParseState) : List LectureSegment :=
  match st.currentSegment with
  | some seg =>
    if st.currentContent ≠ [] then
      st.segments
        ++ [{ seg with content := pyStrip (List.intercalate ['\n'] st.currentContent) }]
    else st.segments
  | none => st.segments

/-- One iteration of the `for line in lines` loop of `parse_lecture_segments`. -/
def parseStep (st : ParseState) (rawLine : List Char) : ParseState :=
  let line := pyStrip rawLine
  if line = [] then
    if st.currentContent ≠ [] then
      { st with currentContent := st.currentContent ++ [[]] }
    else st
  else
    match timingSearch line with
    | some (label, dmin, dmax) =>
      let title := pyStrip label
      { segments := closeSegment st,
        currentSegment := some
          { title := title, content := [], duration_min := dmin, duration_max := dmax,
            order := st.segmentOrder, segment_type := determine_segment_type title },
        currentContent := [],
        segmentOrder := st.segmentOrder + 1 }
    | none =>
      match simpleTimingSearch line, st.currentSegment with
      | some (a, b), some seg =>
        { st with currentSegment := some { seg with duration_min := a, duration_max := b } }
      | _, _ =>
        if hasMinuteMarker line then st
        else { st with currentContent := st.currentContent ++ [line] }

/-- Embeds `parse_lecture_segments`. -/
def parse_lecture_segments (script_text : List Char) : List LectureSegment :=
  let lines := splitChar '\n' (clean_script_metadata script_text)
  closeSegment (lines.foldl parseStep ⟨[], none, [], 0⟩)

/-- The lines the parser iterates over for a given script. -/
def parseLines (script_text : List Char) : List (List Char) :=
  splitChar '\n' (clean_script_metadata script_text)

/-- The number of lines carrying a well-formed labelled timing marker
`[Label: min-max minutes]`, counted exactly as the parser's per-line
`re.search` does. -/
def countMarkerLines (lines : List (List Char)) : Nat :=
  (lines.filter (fun l => (timingSearch (pyStrip l)).isSome)).length

/-- The early-exit head of `generate_timed_audio_segments_with_pauses`: parsing an
unstructured script yields zero segments and the function returns a failure
result (`{"success": False, "error": "No segments found in script"}`); on
success the parsed segments flow on to per-segment synthesis. -/
def generate_timed_audio_segments_with_pauses (script_text : List Char) :
    Except (List Char) (List LectureSegment) :=
  let segments := parse_lecture_segments script_text
  if segments = [] then .error "No segments found in script".data
  else .ok segments

/-! ## Audio timing (`extend_audio_with_silence`, `create_silence_audio`, and the
per-segment assembly branch of `generate_timed_audio_segments_with_pauses`)

Audio buffers are modelled by their sample count `n : ℕ` and sample rate
`r : ℕ`; durations (`len(audio)/sample_rate` in Python, a float) are exact
rationals. -/

/-- Python `int(q)` (truncation toward zero) on a rational. -/
def pyIntTrunc (q : ℚ) : ℤ :=
  if 0 ≤ q then ⌊q⌋ else ⌈q⌉

/-- Embeds `extend_audio_with_silence`: if the current duration `n / r` already reaches
the target, the audio is copied unchanged; otherwise
`int(sample_rate * (target - current_duration))` zero-valued samples are
appended.  Returns the resulting sample count. -/
def extend_audio_with_silence (n r : ℕ) (target : ℚ) : ℕ :=
  if target ≤ (n : ℚ) / (r : ℚ) then n
  else n + (pyIntTrunc ((r : ℚ) * (target - (n : ℚ) / (r : ℚ)))).toNat

/-- The per-segment finalisation branch of
`generate_timed_audio_segments_with_pauses` (lines 489-512): with
`min_duration_seconds = duration_min * 60`, a segment whose measured speech
duration is below the minimum is extended with silence.  A segment whose
speech duration meets or exceeds the minimum reaches
`sf.copy(str(speech_path), str(final_path))`; the `soundfile` module exposes
no `copy` function, so this call raises `AttributeError`, which the
per-segment `except` handler catches before executing `continue` — the
segment is skipped and contributes no final audio. `none` models the
skipped segment. -/
def segmentFinalSamples (durationMin n r : ℕ) : Option ℕ :=
  if (n : ℚ) / (r : ℚ) < (durationMin : ℚ) * 60 then
    some (extend_audio_with_silence n r ((durationMin : ℚ) * 60))
  else none

/-- Embeds `create_silence_audio`: `int(self.sample_rate * duration_seconds)` zero
samples (both arguments are integers, so the product is exact). -/
def create_silence_audio (sample_rate duration_seconds : ℕ) : ℕ :=
  sample_rate * duration_seconds

/-- An element of an assembled lecture audio under the fixed inter-segment gap
policy: either one segment's audio or one pure-silence gap artifact carrying
its sample count. -/
inductive GapItem (α : Type) where
  | seg (a : α)
  | gap (samples : ℕ)
  deriving DecidableEq, Repr

/-- Whether an assembled item is a gap artifact. -/
def GapItem.isGap {α : Type} : GapItem α → Bool
  | .seg _ => false
  | .gap _ => true

/-- Modelled from the spec: the fixed inter-segment gap assembly policy.  The
repository declares the gap artifact constructor (`create_silence_audio` in
`src/core/speech_generator.py`) but contains no caller for it: the assembly
path that inserts the 30-second gaps is absent from `src/`
(`generate_timed_lesson_audio` only concatenates the segment files).  Per the
spec (§4.5): "a constant-duration (30-second) pure-silence artifact is
inserted between every pair of adjacent, successfully-generated segments —
never before the first or after the last". -/
def assembleWithGaps {α : Type} (sample_rate : ℕ) (segs : List α) : List (GapItem α) :=
  List.intersperse (GapItem.gap (create_silence_audio sample_rate 30)) (segs.map GapItem.seg)

/-! ## Speech chunker (`split_text_into_chunks`)

The character budget is `self.max_chars_per_chunk = 4000`. -/

/-- Embeds `re.sub(r'\s+', ' ', s)`: every whitespace run becomes a single space.
Fuel-indexed scanner; fuel `length + 1` is always sufficient. -/
def collapseWsRuns (fuel : ℕ) (cs : List Char) : List Char :=
  match fuel, cs with
  | 0, cs => cs
  | _, [] => []
  | fuel + 1, c :: rest =>
    if isPyWs c then ' ' :: collapseWsRuns fuel (rest.dropWhile isPyWs)
    else c :: collapseWsRuns fuel rest

/-- The pre-pass of `split_text_into_chunks`: `re.sub(r'\s+', ' ', text.strip())`. -/
def collapseWs (text : List Char) : List Char :=
  collapseWsRuns ((pyStrip text).length + 1) (pyStrip text)

/-- Python `text.split('\n\n')` (literal two-character separator, leftmost,
non-overlapping). -/
def splitParagraphs (fuel : ℕ) (cs : List Char) : List (List Char) :=
  match fuel, cs with
  | 0, cs => [cs]
  | _, [] => [[]]
  | fuel + 1, c :: rest =>
    if c = '\n' then
      match rest with
      | '\n' :: rest2 => [] :: splitParagraphs fuel rest2
      | _ =>
        match splitParagraphs fuel rest with
        | [] => [[c]]
        | p :: ps => (c :: p) :: ps
    else
      match splitParagraphs fuel rest with
      | [] => [[c]]
      | p :: ps => (c :: p) :: ps

/-- Embeds `re.split(r'(?<=[.!?])\s+', s)`: split at each whitespace run immediately
preceded by sentence-terminal punctuation; the run is consumed.  `acc` holds
the (reversed) current piece, whose head is the previously scanned character
— the lookbehind. -/
def sentenceSplitAux (fuel : ℕ) (cs acc : List Char) : List (List Char) :=
  match fuel, cs with
  | 0, cs => [acc.reverse ++ cs]
  | _, [] => [acc.reverse]
  | fuel + 1, c :: rest =>
    if isPyWs c && (acc.head? == some '.' || acc.head? == some '!' || acc.head? == some '?')
    then acc.reverse :: sentenceSplitAux fuel (rest.dropWhile isPyWs) []
    else sentenceSplitAux fuel rest (c :: acc)

/-- Embeds `re.split(r'(?<=[.!?])\s+', s)`. -/
def sentenceSplit (cs : List Char) : List (List Char) :=
  sentenceSplitAux (cs.length + 1) cs []

/-- Accumulator of the chunking loops: emitted chunks plus the running chunk. -/
structure ChunkState where
  chunks : List (List Char)
  cur : List Char
  deriving DecidableEq, Repr

/-- One iteration of the inner `for sentence in sentences` loop. -/
def sentenceFold (st : ChunkState) (s : List Char) : ChunkState :=
  let st :=
    if st.cur.length + s.length + 1 > 4000 ∧ st.cur ≠ [] then
      { chunks := st.chunks ++ [pyStrip st.cur], cur := [] }
    else st
  { st with cur := if st.cur ≠ [] then st.cur ++ ' ' :: s else s }

/-- One iteration of the outer `for paragraph in paragraphs` loop. -/
def paragraphFold (st : ChunkState) (p : List Char) : ChunkState :=
  let st :=
    if st.cur.length + p.length + 2 > 4000 ∧ st.cur ≠ [] then
      { chunks := st.chunks ++ [pyStrip st.cur], cur := [] }
    else st
  let st := { st with cur := if st.cur ≠ [] then st.cur ++ '\n' :: '\n' :: p else p }
  if st.cur.length > 4000 then
    (sentenceSplit st.cur).foldl sentenceFold { st with cur := [] }
  else st

/-- Embeds `split_text_into_chunks`: paragraph-first accumulation with
sentence-boundary fallback, final flush, and the 10-character noise filter. -/
def split_text_into_chunks (text : List Char) : List (List Char) :=
  let t := collapseWs text
  let paragraphs := splitParagraphs (t.length + 1) t
  let st := paragraphs.foldl paragraphFold ⟨[], []⟩
  let chunks := if pyStrip st.cur ≠ [] then st.chunks ++ [pyStrip st.cur] else st.chunks
  chunks.filter (fun c => 10 < (pyStrip c).length)

/-! ## Content cleaning for TTS (`clean_segment_content_for_tts`)

Each `re.sub` of the source is one fuel-indexed scanner, applied in source
order.  Fuel `length + 1` always suffices: every step consumes at least one
character. -/

/-- Tail of `\[\d+:\d+\]` after the `[`: returns the remainder on a match. -/
def timeStampAt (cs : List Char) : Option (List Char) :=
  let d1 := cs.takeWhile Char.isDigit
  match cs.dropWhile Char.isDigit with
  | ':' :: r2 =>
    if d1 = [] then none
    else
      let d2 := r2.takeWhile Char.isDigit
      match r2.dropWhile Char.isDigit with
      | ']' :: r3 => if d2 = [] then none else some r3
      | _ => none
  | _ => none

/-- Embeds `re.sub(r'\[\d+:\d+\]', '', content)`. -/
def removeTimeStamps (fuel : ℕ) (cs : List Char) : List Char :=
  match fuel, cs with
  | 0, cs => cs
  | _, [] => []
  | fuel + 1, c :: rest =>
    if c = '[' then
      match timeStampAt rest with
      | some r => removeTimeStamps fuel r
      | none => c :: removeTimeStamps fuel rest
    else c :: removeTimeStamps fuel rest

/-- Embeds `re.sub(r'\[(\d+)[-–](\d+)\s*minutes?\]', '', content)`. -/
def removeMinuteRanges (fuel : ℕ) (cs : List Char) : List Char :=
  match fuel, cs with
  | 0, cs => cs
  | _, [] => []
  | fuel + 1, c :: rest =>
    if c = '[' then
      match simpleTimingAt rest with
      | some (_, _, r) => removeMinuteRanges fuel r
      | none => c :: removeMinuteRanges fuel rest
    else c :: removeMinuteRanges fuel rest

/-- Embeds `re.sub(r'\[.*?\]', '', content, flags=re.DOTALL)`: from each `[`, lazily
consume up to the first `]` (newlines included); a `[` with no later `]` is
kept. -/
def removeBrackets (fuel : ℕ) (cs : List Char) : List Char :=
  match fuel, cs with
  | 0, cs => cs
  | _, [] => []
  | fuel + 1, c :: rest =>
    if c = '[' then
      let before := rest.takeWhile (fun c => c != ']')
      if before.length < rest.length then
        removeBrackets fuel (rest.drop (before.length + 1))
      else c :: removeBrackets fuel rest
    else c :: removeBrackets fuel rest

/-- Index of the first adjacent `**` in `cs` occurring before any newline
(`.` in the bold/italic patterns does not match `\n`). -/
def findBoldClose : List Char → Option ℕ
  | [] => none
  | '*' :: '*' :: _ => some 0
  | c :: rest =>
    if c = '\n' then none
    else (findBoldClose rest).map (· + 1)

/-- Index of the first `*` in `cs` occurring before any newline. -/
def findItalicClose : List Char → Option ℕ
  | [] => none
  | '*' :: _ => some 0
  | c :: rest =>
    if c = '\n' then none
    else (findItalicClose rest).map (· + 1)

/-- Embeds `re.sub(r'\*\*(.*?)\*\*', r'\1', content)`: each lazily matched
`**group**` is replaced by its group. -/
def removeBold (fuel : ℕ) (cs : List Char) : List Char :=
  match fuel, cs with
  | 0, cs => cs
  | _, [] => []
  | _ + 1, [c] => [c]
  | fuel + 1, c :: d :: rest =>
    if c = '*' ∧ d = '*' then
      match findBoldClose rest with
      | some i => rest.take i ++ removeBold fuel (rest.drop (i + 2))
      | none => c :: removeBold fuel (d :: rest)
    else c :: removeBold fuel (d :: rest)

/-- Embeds `re.sub(r'\*(.*?)\*', r'\1', content)`. -/
def removeItalics (fuel : ℕ) (cs : List Char) : List Char :=
  match fuel, cs with
  | 0, cs => cs
  | _, [] => []
  | fuel + 1, c :: rest =>
    if c = '*' then
      match findItalicClose rest with
      | some i => rest.take i ++ removeItalics fuel (rest.drop (i + 1))
      | none => c :: removeItalics fuel rest
    else c :: removeItalics fuel rest

/-- Embeds `re.sub(r'#{1,6}\s*', '', content)`: up to six `#` and the following
whitespace run (newlines included — the pattern is unanchored) are removed. -/
def removeHashes (fuel : ℕ) (cs : List Char) : List Char :=
  match fuel, cs with
  | 0, cs => cs
  | _, [] => []
  | fuel + 1, c :: rest =>
    if c = '#' then
      let hashes := ((c :: rest).takeWhile (fun c => c == '#')).length
      removeHashes fuel (((c :: rest).drop (min hashes 6)).dropWhile isPyWs)
    else c :: removeHashes fuel rest

/-- Tail of the MULTILINE pattern `^\s*[-•]\s*` at a line-start position:
greedy whitespace, a bullet, greedy whitespace.  Returns the remainder and
whether the match's last character was a newline (i.e. whether the resume
position is again a line start). -/
def bulletAt (cs : List Char) : Option (List Char × Bool) :=
  match cs.dropWhile isPyWs with
  | b :: r2 =>
    if b == '-' || b == '•' then
      let ws2 := r2.takeWhile isPyWs
      some (r2.dropWhile isPyWs, ws2.getLast? == some '\n')
    else none
  | [] => none

/-- Embeds `re.sub(r'^\s*[-•]\s*', '', content, flags=re.MULTILINE)`: `atStart` tracks
whether the scanner sits at a `^` position. -/
def removeBullets (fuel : ℕ) (atStart : Bool) (cs : List Char) : List Char :=
  match fuel, cs with
  | 0, cs => cs
  | _, [] => []
  | fuel + 1, c :: rest =>
    if atStart then
      match bulletAt (c :: rest) with
      | some (rem, nl) => removeBullets fuel nl rem
      | none => c :: removeBullets fuel (c == '\n') rest
    else c :: removeBullets fuel (c == '\n') rest

/-- Tail of the MULTILINE pattern `^\s*\d+\.\s*` at a line-start position. -/
def numListAt (cs : List Char) : Option (List Char × Bool) :=
  let r1 := cs.dropWhile isPyWs
  let ds := r1.takeWhile Char.isDigit
  match r1.dropWhile Char.isDigit with
  | '.' :: r2 =>
    if ds = [] then none
    else
      let ws2 := r2.takeWhile isPyWs
      some (r2.dropWhile isPyWs, ws2.getLast? == some '\n')
  | _ => none

/-- Embeds `re.sub(r'^\s*\d+\.\s*', '', content, flags=re.MULTILINE)`. -/
def removeNumLists (fuel : ℕ) (atStart : Bool) (cs : List Char) : List Char :=
  match fuel, cs with
  | 0, cs => cs
  | _, [] => []
  | fuel + 1, c :: rest =>
    if atStart then
      match numListAt (c :: rest) with
      | some (rem, nl) => removeNumLists fuel nl rem
      | none => c :: removeNumLists fuel (c == '\n') rest
    else c :: removeNumLists fuel (c == '\n') rest

/-- Embeds `re.sub(r'\n\s*\n\s*\n+', '\n\n', content)`: after backtracking, the
pattern matches at a `\n` exactly when the maximal whitespace run starting
there contains at least three newlines; the match extends through the last
newline of the run and is replaced by two newlines. -/
def collapseBlankLines (fuel : ℕ) (cs : List Char) : List Char :=
  match fuel, cs with
  | 0, cs => cs
  | _, [] => []
  | fuel + 1, c :: rest =>
    if c = '\n' then
      let run := c :: rest.takeWhile isPyWs
      if 3 ≤ (run.filter (fun c => c == '\n')).length then
        let trailing := (run.reverse.takeWhile (fun c => c != '\n')).length
        '\n' :: '\n' :: collapseBlankLines fuel ((c :: rest).drop (run.length - trailing))
      else c :: collapseBlankLines fuel rest
    else c :: collapseBlankLines fuel rest

/-- Embeds `re.sub(r' {2,}', ' ', content)`: each run of two or more spaces becomes
one space. -/
def collapseSpaces (fuel : ℕ) (cs : List Char) : List Char :=
  match fuel, cs with
  | 0, cs => cs
  | _, [] => []
  | fuel + 1, c :: rest =>
    if c = ' ' then
      let run := (c :: rest).takeWhile (fun c => c == ' ')
      if 2 ≤ run.length then ' ' :: collapseSpaces fuel ((c :: rest).drop run.length)
      else c :: collapseSpaces fuel rest
    else c :: collapseSpaces fuel rest

/-- Embeds `re.sub(r'\t', ' ', content)`. -/
def tabsToSpaces (cs : List Char) : List Char :=
  cs.map (fun c => if c = '\t' then ' ' else c)

/-- The metadata / instruction-residue line filter of
`clean_segment_content_for_tts`: blank lines and lines that look like
teaching notes are dropped. -/
def tts_line_kept (line : List Char) : Bool :=
  let ls := pyStrip line
  !(ls == []
    || startsWith "Note:".data ls
    || startsWith "Instruction:".data ls
    || startsWith "Teacher:".data ls
    || containsSub "visual aid".data (pyLower ls)
    || containsSub "show slide".data (pyLower ls))

/-- Embeds `clean_segment_content_for_tts`: the eleven regex substitutions in source
order, the line filter, rejoin and final strip.  (The under-50-character
check only logs a warning and does not alter the result.) -/
def clean_segment_content_for_tts (content : List Char) : List Char :=
  let c1 := removeTimeStamps (content.length + 1) content
  let c2 := removeMinuteRanges (c1.length + 1) c1
  let c3 := removeBrackets (c2.length + 1) c2
  let c4 := removeBold (c3.length + 1) c3
  let c5 := removeItalics (c4.length + 1) c4
  let c6 := removeHashes (c5.length + 1) c5
  let c7 := removeBullets (c6.length + 1) true c6
  let c8 := removeNumLists (c7.length + 1) true c7
  let c9 := collapseBlankLines (c8.length + 1) c8
  let c10 := collapseSpaces (c9.length + 1) c9
  let c11 := tabsToSpaces c10
  pyStrip (List.intercalate ['\n'] ((splitChar '\n' c11).filter tts_line_kept))

/-! ## Batch orchestrator (`app.py`: `process_course_for_scripts`,
`generate_daily_scripts`)

Each per-PDF unit's external effects (script generation + upload + record, and
the timed-audio generation) are modelled by their outcomes, carried in the
input data.  The orchestration — the `try/except` structure, the counters and
the structured error list — is embedded faithfully. -/

/-- Outcome of the audio-generation sub-block for one unit: the
`audio_result['success']` flag may be false (recorded with type
`timed_audio_generation`), or the block may raise (recorded with type
`audio_generation`). -/
inductive AudioOutcome where
  | ok
  | failedResult (msg : List Char)
  | raised (msg : List Char)
  deriving DecidableEq, Repr

/-- One (lesson, PDF) unit.  `script` is the outcome of the
`generate_script_pdf_bytes` + upload + URL + record chain (its `Except` error
is the exception caught by the per-PDF handler); on success it carries
whether a `file_url` was obtained (the audio sub-block runs only then). -/
structure PdfUnit where
  script : Except (List Char) Bool
  audio : AudioOutcome
  deriving Repr

/-- A lesson with its PDF resources. -/
structure Lesson where
  id : List Char
  pdfs : List PdfUnit
  deriving Repr

/-- A structured error entry `{lesson_id, [pdf_index,] type, error}`. -/
structure ErrEntry where
  lesson_id : List Char
  pdf_index : Option ℕ
  stage : List Char
  error : List Char
  deriving DecidableEq, Repr

/-- The per-course accumulator dict of `process_course_for_scripts`. -/
structure CourseResult where
  lessons_processed : ℕ
  successful_generations : ℕ
  failed_generations : ℕ
  successful_audio_generations : ℕ
  failed_audio_generations : ℕ
  errors : List ErrEntry
  deriving DecidableEq, Repr

/-- The body of the inner `for idx, pdf_url in enumerate(..., start=1)` loop:
on script failure the exception is caught, counted, and recorded; on success
the counter is bumped and the audio sub-block runs under its own handler. -/
def processPdf (lessonId : List Char) (idx : ℕ) (r : CourseResult) (u : PdfUnit) :
    CourseResult :=
  match u.script with
  | .error e =>
    { r with
      failed_generations := r.failed_generations + 1,
      errors := r.errors ++ [⟨lessonId, some idx, "script_generation".data, e⟩] }
  | .ok fileUrl =>
    let r := { r with successful_generations := r.successful_generations + 1 }
    if fileUrl then
      match u.audio with
      | .ok =>
        { r with successful_audio_generations := r.successful_audio_generations + 1 }
      | .failedResult m =>
        { r with
          failed_audio_generations := r.failed_audio_generations + 1,
          errors := r.errors ++ [⟨lessonId, none, "timed_audio_generation".data, m⟩] }
      | .raised m =>
        { r with
          failed_audio_generations := r.failed_audio_generations + 1,
          errors := r.errors ++ [⟨lessonId, none, "audio_generation".data, m⟩] }
    else r

/-- Fold of the inner loop with the 1-based `enumerate` index. -/
def processPdfs (lessonId : List Char) (idx : ℕ) (r : CourseResult) :
    List PdfUnit → CourseResult
  | [] => r
  | u :: us => processPdfs lessonId (idx + 1) (processPdf lessonId idx r u) us

/-- Embeds `process_course_for_scripts`: `result['lessons_processed']` is set to the
number of lessons up front, then every lesson's PDFs are processed in order. -/
def process_course_for_scripts (lessons : List Lesson) : CourseResult :=
  lessons.foldl (fun r lesson => processPdfs lesson.id 1 r lesson.pdfs)
    ⟨lessons.length, 0, 0, 0, 0, []⟩

/-- The run summary assembled by `generate_daily_scripts`. -/
structure BatchSummary where
  total_courses : ℕ
  total_lessons_processed : ℕ
  successful_generations : ℕ
  failed_generations : ℕ
  successful_audio_generations : ℕ
  failed_audio_generations : ℕ
  errors : List ErrEntry
  deriving DecidableEq, Repr

/-- The per-course accumulation step of `generate_daily_scripts`. -/
def dailyStep (s : BatchSummary) (course : List Lesson) : BatchSummary :=
  let r := process_course_for_scripts course
  { s with
    total_lessons_processed := s.total_lessons_processed + r.lessons_processed,
    successful_generations := s.successful_generations + r.successful_generations,
    failed_generations := s.failed_generations + r.failed_generations,
    successful_audio_generations :=
      s.successful_audio_generations + r.successful_audio_generations,
    failed_audio_generations :=
      s.failed_audio_generations + r.failed_audio_generations,
    errors := s.errors ++ r.errors }

/-- Embeds `generate_daily_scripts`: per-course results are aggregated into one
summary; the batch always completes. -/
def generate_daily_scripts (courses : List (List Lesson)) : BatchSummary :=
  courses.foldl dailyStep ⟨courses.length, 0, 0, 0, 0, 0, []⟩

/-- Reference count: PDF units of a lesson list whose script stage succeeded. -/
def countScriptOk (lessons : List Lesson) : ℕ :=
  (lessons.map (fun l => (l.pdfs.filter (fun u => u.script.isOk)).length)).sum

/-- Reference count: PDF units whose script stage failed. -/
def countScriptFail (lessons : List Lesson) : ℕ :=
  (lessons.map (fun l => (l.pdfs.filter (fun u => !u.script.isOk)).length)).sum

/-! ## Auxiliary predicates used by the claim statements -/

/-- Well-formedness of a parsed line sequence for dense segment numbering:
`pending` records whether a segment is currently open with still-empty
buffered content.  The branch structure mirrors `parseStep` exactly; the
check fails precisely when a timing marker (or the end of input) arrives
while the open segment has accumulated no content — in that situation
`parse_lecture_segments` silently drops the open segment while still having
consumed its `order` number. -/
def wfMarkedScript (pending : Bool) : List (List Char) → Bool
  | [] => !pending
  | l :: rest =>
    let line := pyStrip l
    if line = [] then wfMarkedScript pending rest
    else if (timingSearch line).isSome then !pending && wfMarkedScript true rest
    else if (simpleTimingSearch line).isSome then wfMarkedScript pending rest
    else if hasMinuteMarker line then wfMarkedScript pending rest
    else wfMarkedScript false rest

/-- The parser-state invariant maintained by the line loop: the emitted
segments carry the dense orders `0..len-1`, an open segment carries the next
order, and `segmentOrder` is the number of orders consumed so far. -/
def ParseInv (st : ParseState) : Prop :=
  st.segments.map (fun seg => seg.order) = List.range st.segments.length ∧
    (∀ seg, st.currentSegment = some seg → seg.order = st.segments.length) ∧
    st.segmentOrder = st.segments.length + (if st.currentSegment.isSome then 1 else 0)

/-- Two adjacent spaces somewhere in the string. -/
def hasDoubleSpace : List Char → Bool
  | [] => false
  | [_] => false
  | c :: d :: rest => (c == ' ' && d == ' ') || hasDoubleSpace (d :: rest)

/-- A lowercase ASCII letter or a space. -/
def isPlainChar (c : Char) : Bool :=
  ('a' ≤ c && c ≤ 'z') || c == ' '

/-- Already-clean plain text: one non-empty line of lowercase words separated
by single spaces, with no leading or trailing space.  `clean_segment_content_for_tts`
maps such a string to itself. -/
def PlainLine (cs : List Char) : Prop :=
  cs ≠ [] ∧ (∀ c ∈ cs, isPlainChar c = true) ∧
    cs.head? ≠ some ' ' ∧ cs.getLast? ≠ some ' ' ∧ hasDoubleSpace cs = false

/-! # Theorems -/

/-- C9: For every source URL that does not use an http(s) scheme or does not end
in `.pdf`, the validity check returns false — and it returns false for
exactly those URLs — and `generate_script_pdf_bytes` rejects the URL with the
invalid-source error whatever the download / extraction / synthesis
collaborators would do, i.e. before any download is attempted. -/
theorem invalid_url_rejected_before_download (url : List Char) :
    (is_valid_pdf_url url = true ↔
      ((startsWith "http://".data (pyStrip (pyLower url)) = true
          ∨ startsWith "https://".data (pyStrip (pyLower url)) = true)
        ∧ endsWith ".pdf".data (pyStrip (pyLower url)) = true)) ∧
    (is_valid_pdf_url url = false →
      ∀ download extract synthesize,
        generate_script_pdf_bytes download extract synthesize url
          = .error ("Invalid PDF URL: ".data ++ url)) := by
  constructor
  · unfold is_valid_pdf_url
    rcases eq_or_ne url ([] : List Char) with h0 | h0
    · subst h0; simp; decide
    · rcases eq_or_ne url ("NULL".data) with h1 | h1
      · subst h1; simp; decide
      · rw [if_neg (by simp [h0, h1])]
        simp [Bool.and_eq_true, Bool.or_eq_true]
  · intro hinvalid download extract synthesize
    unfold generate_script_pdf_bytes
    rw [hinvalid]
    rfl

/-- Witness for C9 at the concrete URL `ftp://host/file.pdf` (wrong scheme). -/
theorem invalid_url_rejected_before_download_witness :
    is_valid_pdf_url "ftp://host/file.pdf".data = false ∧
      generate_script_pdf_bytes (fun _ => .ok []) (fun _ => .ok [])
          (fun _ => .ok []) "ftp://host/file.pdf".data
        = .error ("Invalid PDF URL: ".data ++ "ftp://host/file.pdf".data) := by
  refine ⟨by decide, ?_⟩
  exact (invalid_url_rejected_before_download "ftp://host/file.pdf".data).2 (by decide)
    (fun _ => .ok []) (fun _ => .ok []) (fun _ => .ok [])

/-- C10: While a segment is open, a line carrying a label-less simple timing
marker `[min-max minutes]` (and no labelled marker) does not start a new
segment, is excluded from the buffered content, and overwrites the open
segment's `duration_min` / `duration_max` in place: everything else in the
parser state is unchanged. -/
theorem simple_marker_updates_open_segment (st : ParseState) (rawLine : List Char)
    (seg : LectureSegment) (a b : Nat)
    (hopen : st.currentSegment = some seg)
    (hnb : pyStrip rawLine ≠ [])
    (hlab : timingSearch (pyStrip rawLine) = none)
    (hsimp : simpleTimingSearch (pyStrip rawLine) = some (a, b)) :
    parseStep st rawLine =
      { st with currentSegment := some { seg with duration_min := a, duration_max := b } } := by
  unfold parseStep
  rw [if_neg hnb, hlab, hsimp, hopen]

/-- Witness for C10: the line `[3-4 minutes]` rewrites the open segment's
bounds from 1-2 to 3-4 without touching anything else. -/
theorem simple_marker_updates_open_segment_witness :
    parseStep
        ⟨[], some ⟨"A".data, [], 1, 2, 0, "content".data⟩, ["x".data], 1⟩
        "[3-4 minutes]".data
      = ⟨[], some ⟨"A".data, [], 3, 4, 0, "content".data⟩, ["x".data], 1⟩ :=
  simple_marker_updates_open_segment
    ⟨[], some ⟨"A".data, [], 1, 2, 0, "content".data⟩, ["x".data], 1⟩
    "[3-4 minutes]".data ⟨"A".data, [], 1, 2, 0, "content".data⟩ 3 4
    rfl (by decide) (by decide) (by decide)

/-- C1: For a segment declaring `duration_min = D` minutes whose measured
speech duration `n / r` is below `D * 60` seconds, the assembler appends
zero-valued silence samples and the final duration equals `D * 60` seconds
within one sample period `1 / r`. -/
theorem short_segment_padded_to_minimum (D n r : ℕ) (hr : 0 < r)
    (hs : (n : ℚ) / (r : ℚ) < (D : ℚ) * 60) :
    segmentFinalSamples D n r = some (extend_audio_with_silence n r ((D : ℚ) * 60)) ∧
      |((extend_audio_with_silence n r ((D : ℚ) * 60) : ℚ)) / (r : ℚ) - (D : ℚ) * 60|
        ≤ 1 / (r : ℚ) := by
  have hrQ : (0 : ℚ) < (r : ℚ) := by exact_mod_cast hr
  have hrne : (r : ℚ) ≠ 0 := ne_of_gt hrQ
  constructor
  · unfold segmentFinalSamples
    rw [if_pos hs]
  · unfold extend_audio_with_silence
    rw [if_neg (not_le.mpr hs)]
    set T : ℚ := (D : ℚ) * 60 with hT
    set x : ℚ := (r : ℚ) * T - (n : ℚ) with hx
    have harg : (r : ℚ) * (T - (n : ℚ) / (r : ℚ)) = x := by
      rw [hx]; field_simp; ring
    have hxpos : 0 < x := by
      have hn : (n : ℚ) < T * (r : ℚ) := (div_lt_iff₀ hrQ).mp hs
      have hn' : (n : ℚ) < (r : ℚ) * T := by rw [mul_comm]; exact hn
      rw [hx]; linarith
    have htrunc : pyIntTrunc ((r : ℚ) * (T - (n : ℚ) / (r : ℚ))) = ⌊x⌋ := by
      rw [harg]; unfold pyIntTrunc; rw [if_pos hxpos.le]
    have hfl0 : (0 : ℤ) ≤ ⌊x⌋ := Int.floor_nonneg.mpr hxpos.le
    have htn : ((⌊x⌋.toNat : ℕ) : ℚ) = ((⌊x⌋ : ℤ) : ℚ) := by
      exact_mod_cast congrArg (fun z : ℤ => (z : ℚ)) (Int.toNat_of_nonneg hfl0)
    have hcast : ((n + (pyIntTrunc ((r : ℚ) * (T - (n : ℚ) / (r : ℚ)))).toNat : ℕ) : ℚ)
        = (n : ℚ) + ((⌊x⌋ : ℤ) : ℚ) := by
      rw [htrunc, Nat.cast_add, htn]
    rw [hcast]
    have hrewrite : ((n : ℚ) + ((⌊x⌋ : ℤ) : ℚ)) / (r : ℚ) - T
        = (((⌊x⌋ : ℤ) : ℚ) - x) / (r : ℚ) := by
      field_simp
      rw [hx]
      ring
    rw [hrewrite, abs_div, abs_of_pos hrQ]
    have habs : |((⌊x⌋ : ℤ) : ℚ) - x| ≤ 1 := by
      have h1 : ((⌊x⌋ : ℤ) : ℚ) ≤ x := Int.floor_le x
      have h2 : x - 1 < ((⌊x⌋ : ℤ) : ℚ) := Int.sub_one_lt_floor x
      rw [abs_of_nonpos (by linarith)]
      linarith
    gcongr

/-- Witness for C1: one sample at 2 Hz declared to last 1 minute is padded to
exactly 120 samples, i.e. 60 seconds. -/
theorem short_segment_padded_to_minimum_witness :
    segmentFinalSamples 1 1 2 = some (extend_audio_with_silence 1 2 ((1 : ℚ) * 60)) ∧
      |((extend_audio_with_silence 1 2 ((1 : ℚ) * 60) : ℚ)) / (2 : ℚ) - (1 : ℚ) * 60|
        ≤ 1 / (2 : ℚ) :=
  short_segment_padded_to_minimum 1 1 2 (by norm_num) (by norm_num)

/-- C4 (code bug): a segment whose measured speech duration meets or exceeds
its declared minimum reaches the `sf.copy(...)` call; `soundfile` has no
`copy` attribute, so the call raises and the per-segment handler skips the
segment entirely instead of emitting it unpadded.  Concretely: 700 seconds of
speech (700 samples at 1 Hz) against a 10-minute (600 s) minimum yields no
final segment audio at all. -/
theorem long_segment_skipped_by_sf_copy_bug : segmentFinalSamples 10 700 1 = none := by
  unfold segmentFinalSamples
  rw [if_neg (by norm_num)]

/-- C5 (the fixed inter-segment gap assembly policy, modelled from the spec —
the `src/` tree declares `create_silence_audio` but the assembly path calling
it is absent): for `S` segments that each produced audio, exactly
`max(S-1, 0)` gap artifacts are inserted (`S - 1` in truncated ℕ
subtraction), the assembled list alternates segment/gap (gaps sit exactly at
the odd positions, hence strictly between two adjacent segments and never
first or last), and every gap is the 30-second silence artifact built by
`create_silence_audio`. -/
theorem fixed_gap_assembly {α : Type} (r : ℕ) (segs : List α) (hr : 0 < r) :
    ((assembleWithGaps r segs).countP (fun it => it.isGap) = segs.length - 1) ∧
    ((assembleWithGaps r segs).length = 2 * segs.length - 1) ∧
    (∀ i (h : i < (assembleWithGaps r segs).length),
        ((assembleWithGaps r segs)[i].isGap = true ↔ i % 2 = 1)) ∧
    (∀ it ∈ assembleWithGaps r segs, it.isGap = true →
        it = GapItem.gap (create_silence_audio r 30) ∧
          ((create_silence_audio r 30 : ℕ) : ℚ) / (r : ℚ) = 30) := by
  have hrne : (r : ℚ) ≠ 0 := Nat.cast_ne_zero.mpr hr.ne'
  have hdur : ((create_silence_audio r 30 : ℕ) : ℚ) / (r : ℚ) = 30 := by
    unfold create_silence_audio
    push_cast
    field_simp
  induction segs with
  | nil =>
    refine ⟨by simp [assembleWithGaps], by simp [assembleWithGaps], ?_, ?_⟩
    · intro i h
      simp [assembleWithGaps] at h
    · intro it hit
      simp [assembleWithGaps] at hit
  | cons a tail ih =>
    cases tail with
    | nil =>
      refine ⟨by simp [assembleWithGaps, GapItem.isGap], by simp [assembleWithGaps], ?_, ?_⟩
      · intro i h
        simp only [assembleWithGaps, List.map, List.intersperse_singleton,
          List.length_singleton] at h
        have hi : i = 0 := by omega
        subst hi
        simp [assembleWithGaps, GapItem.isGap]
      · intro it hit hgap
        simp only [assembleWithGaps, List.map, List.intersperse_singleton,
          List.mem_singleton] at hit
        subst hit
        simp [GapItem.isGap] at hgap
    | cons b rest =>
      have hstep : assembleWithGaps r (a :: b :: rest)
          = GapItem.seg a :: GapItem.gap (create_silence_audio r 30)
              :: assembleWithGaps r (b :: rest) := by
        simp [assembleWithGaps, List.intersperse_cons_cons]
      obtain ⟨ihc, ihl, ihp, ihm⟩ := ih
      refine ⟨?_, ?_, ?_, ?_⟩
      · rw [hstep]
        simp [List.countP_cons, GapItem.isGap] at ihc ⊢
        omega
      · rw [hstep]
        simp only [List.length_cons] at ihl ⊢
        omega
      · intro i h
        have h2 : i < (GapItem.seg a :: GapItem.gap (create_silence_audio r 30)
            :: assembleWithGaps r (b :: rest)).length := by
          rw [← hstep]; exact h
        rw [List.getElem_of_eq hstep h]
        rcases i with _ | i
        · simp [GapItem.isGap]
        rcases i with _ | j
        · simp [GapItem.isGap]
        · simp only [List.length_cons] at h2
          have hj : j < (assembleWithGaps r (b :: rest)).length := by omega
          have hmod : (j + 1 + 1) % 2 = j % 2 := by omega
          simp only [List.getElem_cons_succ, hmod]
          exact ihp j hj
      · intro it hit hgap
        rw [hstep] at hit
        simp only [List.mem_cons] at hit
        rcases hit with h0 | h1 | hmem
        · subst h0; simp [GapItem.isGap] at hgap
        · subst h1; exact ⟨rfl, hdur⟩
        · exact ihm it hmem hgap

/-- Witness for C5: three segments at 2 Hz yield exactly two gaps, at the odd
positions, each a 30-second silence. -/
theorem fixed_gap_assembly_witness :
    ((assembleWithGaps 2 [0, 1, 2]).countP (fun it => it.isGap) = 2) ∧
      ((assembleWithGaps 2 [(0 : ℕ), 1, 2])[1].isGap = true ↔ 1 % 2 = 1) := by
  refine ⟨?_, ?_⟩
  · have h := (fixed_gap_assembly 2 [(0 : ℕ), 1, 2] (by norm_num)).1
    simpa using h
  · exact (fixed_gap_assembly 2 [(0 : ℕ), 1, 2] (by norm_num)).2.2.1 1 (by decide)

/-- A parse step on a line with no labelled timing marker neither emits a
segment nor opens one, when none is open. -/
theorem parseStep_no_marker (st : ParseState) (l : List Char)
    (hcur : st.currentSegment = none)
    (hml : timingSearch (pyStrip l) = none) :
    ((parseStep st l).segments = st.segments) ∧
      ((parseStep st l).currentSegment = none) := by
  unfold parseStep
  by_cases hb : pyStrip l = []
  · rw [if_pos hb]
    split_ifs <;> exact ⟨rfl, hcur⟩
  · rw [if_neg hb, hml]
    cases hsimp : simpleTimingSearch (pyStrip l) with
    | none =>
      rw [hcur]
      by_cases hmm : hasMinuteMarker (pyStrip l) <;> simp [hmm, hcur]
    | some ab =>
      rw [hcur]
      by_cases hmm : hasMinuteMarker (pyStrip l) <;> simp [hmm, hcur]

/-- Folding the parser over marker-free lines never creates a segment. -/
theorem parse_fold_no_marker (ls : List (List Char)) (st : ParseState)
    (hcur : st.currentSegment = none)
    (hml : ∀ l ∈ ls, timingSearch (pyStrip l) = none) :
    ((ls.foldl parseStep st).segments = st.segments) ∧
      ((ls.foldl parseStep st).currentSegment = none) := by
  induction ls generalizing st with
  | nil => exact ⟨rfl, hcur⟩
  | cons l rest ih =>
    have hstep := parseStep_no_marker st l hcur (hml l (by simp))
    have hrec := ih (parseStep st l) hstep.2 (fun x hx => hml x (by simp [hx]))
    rw [List.foldl_cons]
    exact ⟨hstep.1 ▸ hrec.1, hrec.2⟩

/-- C3 (amended): for a script in which zero timing markers are found, the
parser returns the empty list — there is no "Complete Lecture" fallback
segment — and `generate_timed_audio_segments_with_pauses` consequently fails
with the error `No segments found in script` instead of producing audio. -/
theorem no_marker_script_fails (s : List Char)
    (h : countMarkerLines (parseLines s) = 0) :
    parse_lecture_segments s = [] ∧
      generate_timed_audio_segments_with_pauses s
        = .error "No segments found in script".data := by
  have hml : ∀ l ∈ parseLines s, timingSearch (pyStrip l) = none := by
    intro l hl
    have hnil : (parseLines s).filter (fun l => (timingSearch (pyStrip l)).isSome) = [] :=
      List.length_eq_zero.mp h
    have hnot := (List.filter_eq_nil_iff.mp hnil) l hl
    simpa [Option.isSome_iff_ne_none] using hnot
  have hfold := parse_fold_no_marker (parseLines s) ⟨[], none, [], 0⟩ rfl hml
  have hparse : parse_lecture_segments s = [] := by
    have hdef : parse_lecture_segments s
        = closeSegment ((parseLines s).foldl parseStep ⟨[], none, [], 0⟩) := rfl
    rw [hdef]
    unfold closeSegment
    rw [hfold.2]
    exact hfold.1
  refine ⟨hparse, ?_⟩
  unfold generate_timed_audio_segments_with_pauses
  rw [hparse]
  rfl

/-- Witness for C3 (amended) at the unstructured script `hello world`. -/
theorem no_marker_script_fails_witness :
    parse_lecture_segments "hello world".data = [] ∧
      generate_timed_audio_segments_with_pauses "hello world".data
        = .error "No segments found in script".data :=
  no_marker_script_fails "hello world".data (by decide)

/-- Counterexample to C3 as stated: the unstructured script `hello world`
contains zero timing markers, yet the parser does not produce exactly one
fallback segment (it produces none at all). -/
theorem no_fallback_segment_counterexample :
    countMarkerLines (parseLines "hello world".data) = 0 ∧
      (parse_lecture_segments "hello world".data).length ≠ 1 := by
  constructor
  · decide
  · decide

/-- Counterexample to C2 as stated: the script
`[A: 1-2 minutes]\n[B: 3-4 minutes]\nhello` contains two well-formed timing
markers, but the parser returns only one segment (segment `A`, whose buffered
content is empty when marker `B` arrives, is silently dropped while still
consuming order number 0), and that segment carries order 1. -/
theorem parser_drops_empty_segment_counterexample :
    countMarkerLines (parseLines "[A: 1-2 minutes]\n[B: 3-4 minutes]\nhello".data) = 2 ∧
      (parse_lecture_segments "[A: 1-2 minutes]\n[B: 3-4 minutes]\nhello".data).length ≠ 2 ∧
      (parse_lecture_segments "[A: 1-2 minutes]\n[B: 3-4 minutes]\nhello".data).map
          (fun seg => seg.order) = [1] := by
  refine ⟨by decide, by decide, by decide⟩

/-- A pattern sitting at the head of a suffix occurs as a substring. -/
theorem containsSub_of_suffix (pat t cs : List Char) (hsuf : t <:+ cs)
    (hpre : startsWith pat t = true) : containsSub pat cs = true := by
  induction cs with
  | nil =>
    have ht : t = [] := List.eq_nil_of_suffix_nil hsuf
    subst ht
    simpa [containsSub, startsWith] using hpre
  | cons c rest ih =>
    obtain ⟨pre, hpre'⟩ := hsuf
    cases pre with
    | nil =>
      simp only [List.nil_append] at hpre'
      subst hpre'
      simp [containsSub, startsWith] at hpre ⊢
      exact Or.inl hpre
    | cons p ps =>
      have htail : t <:+ rest := by
        refine ⟨ps, ?_⟩
        simpa using congrArg List.tail hpre'
      simp [containsSub, ih htail]

/-- If the skip-regex `\[.*?minutes?\]` matches, one of `minute]` / `minutes]`
occurs in the text. -/
theorem hasMinuteMarker_contains (cs : List Char) (h : hasMinuteMarker cs = true) :
    containsSub "minute]".data cs = true ∨ containsSub "minutes]".data cs = true := by
  induction cs with
  | nil => simp [hasMinuteMarker] at h
  | cons c rest ih =>
    unfold hasMinuteMarker at h
    by_cases hc : c = '['
    · rw [if_pos hc] at h
      rcases Bool.or_eq_true _ _ |>.mp h with h1 | h2
      · exact Or.inl (by simp [containsSub, h1])
      · exact Or.inr (by simp [containsSub, h2])
    · rw [if_neg hc] at h
      rcases ih h with h1 | h2
      · exact Or.inl (by simp [containsSub, h1])
      · exact Or.inr (by simp [containsSub, h2])

/-- A successful simple-marker match leaves `minute]` / `minutes]` in the text
after the `[`. -/
theorem simpleTimingAt_contains (cs : List Char) (a b : ℕ) (rem : List Char)
    (h : simpleTimingAt cs = some (a, b, rem)) :
    containsSub "minute]".data cs = true ∨ containsSub "minutes]".data cs = true := by
  unfold simpleTimingAt at h
  cases hd : cs.dropWhile Char.isDigit with
  | nil => rw [hd] at h; exact absurd h (by simp)
  | cons dash r2 =>
    rw [hd] at h
    have hsuf2 : r2 <:+ cs := (List.suffix_cons dash r2).trans (hd ▸ List.dropWhile_suffix _)
    have hsuf4 : (r2.dropWhile Char.isDigit).dropWhile isPyWs <:+ cs :=
      ((List.dropWhile_suffix _).trans (List.dropWhile_suffix _)).trans hsuf2
    dsimp only at h
    split_ifs at h with h1 h2 h3
    · exact Or.inr (containsSub_of_suffix _ _ _ hsuf4 h3)
    · exact Or.inl (containsSub_of_suffix _ _ _ hsuf4 (by assumption))

/-- The parser's skip-check subsumes the simple-marker search: a line matching
`\[(\d+)[-–](\d+)\s*minutes?\]` also matches `\[.*?minutes?\]`. -/
theorem simpleTimingSearch_hasMinuteMarker (cs : List Char) (x : ℕ × ℕ)
    (h : simpleTimingSearch cs = some x) : hasMinuteMarker cs = true := by
  induction cs with
  | nil => simp [simpleTimingSearch] at h
  | cons c rest ih =>
    unfold simpleTimingSearch at h
    unfold hasMinuteMarker
    by_cases hc : c = '['
    · rw [if_pos hc] at h
      rw [if_pos hc]
      cases hat : simpleTimingAt rest with
      | some abr =>
        obtain ⟨a, b, rem⟩ := abr
        rcases simpleTimingAt_contains rest a b rem hat with hh | hh <;> simp [hh]
      | none =>
        rw [hat] at h
        rcases hasMinuteMarker_contains rest (ih h) with hh | hh <;> simp [hh]
    · rw [if_neg hc] at h
      rw [if_neg hc]
      exact ih h

/-- Unfolding `countMarkerLines` over the first line. -/
theorem countMarkerLines_cons (l : List Char) (rest : List (List Char)) :
    countMarkerLines (l :: rest)
      = (if (timingSearch (pyStrip l)).isSome then 1 else 0) + countMarkerLines rest := by
  unfold countMarkerLines
  rw [List.filter_cons]
  by_cases hp : (timingSearch (pyStrip l)).isSome
  · simp [hp, Nat.add_comm]
  · simp [hp]

/-- The parser line loop, run over lines that satisfy `wfMarkedScript`, emits
segments with dense orders: one per marker line encountered. -/
theorem parse_fold_wf (ls : List (List Char)) (st : ParseState)
    (hinv : ParseInv st)
    (hwf : wfMarkedScript (st.currentSegment.isSome && st.currentContent.isEmpty) ls = true) :
    (closeSegment (ls.foldl parseStep st)).map (fun seg => seg.order)
      = List.range (st.segments.length
          + (if st.currentSegment.isSome then 1 else 0) + countMarkerLines ls) := by
  induction ls generalizing st with
  | nil =>
    unfold wfMarkedScript at hwf
    obtain ⟨h1, h2, h3⟩ := hinv
    simp only [List.foldl_nil]
    cases hcs : st.currentSegment with
    | none =>
      unfold closeSegment
      rw [hcs]
      simpa [countMarkerLines, hcs] using h1
    | some seg =>
      rw [hcs] at hwf
      simp only [Option.isSome_some, Bool.true_and, Bool.not_eq_true'] at hwf
      have hcc : st.currentContent ≠ [] := by
        intro hx
        rw [hx] at hwf
        simp at hwf
      unfold closeSegment
      rw [hcs]
      dsimp only
      rw [if_pos hcc]
      rw [List.map_append, h1, h2 seg hcs]
      simp [countMarkerLines, hcs, List.range_succ]
  | cons l rest ih =>
    rw [List.foldl_cons, countMarkerLines_cons]
    unfold wfMarkedScript at hwf
    by_cases hb : pyStrip l = []
    · rw [if_pos hb] at hwf
      have hts : timingSearch (pyStrip l) = none := by rw [hb]; rfl
      have hstep : parseStep st l
          = if st.currentContent ≠ [] then
              { st with currentContent := st.currentContent ++ [[]] } else st := by
        unfold parseStep; rw [if_pos hb]
      rw [hstep, hts]
      by_cases hcc : st.currentContent ≠ []
      · rw [if_pos hcc]
        have h2e : st.currentContent.isEmpty = false := by
          cases hc : st.currentContent
          · exact absurd hc hcc
          · simp
        have h3e : (st.currentContent ++ [[]]).isEmpty = false := by
          cases st.currentContent <;> simp
        have hrec := ih ({ st with currentContent := st.currentContent ++ [[]] })
          ⟨hinv.1, hinv.2.1, hinv.2.2⟩ (by simpa [h2e, h3e] using hwf)
        rw [hrec]
        congr 1
        dsimp only
        simp only [Option.isSome_some, Option.isSome_none, Bool.false_eq_true, if_true, if_false]
        omega
      · rw [if_neg hcc]
        have hrec := ih st hinv hwf
        rw [hrec]
        congr 1
        dsimp only
        simp only [Option.isSome_some, Option.isSome_none, Bool.false_eq_true, if_true, if_false]
        omega
    · rw [if_neg hb] at hwf
      cases hts : timingSearch (pyStrip l) with
      | some lab =>
        obtain ⟨label, dmin, dmax⟩ := lab
        rw [hts] at hwf
        simp only [Option.isSome_some, if_true, Bool.and_eq_true, Bool.not_eq_true'] at hwf
        obtain ⟨hpend, hwfrest⟩ := hwf
        obtain ⟨h1, h2, h3⟩ := hinv
        have hstep : parseStep st l
            = ⟨closeSegment st,
                some ⟨pyStrip label, [], dmin, dmax, st.segmentOrder,
                  determine_segment_type (pyStrip label)⟩,
                [], st.segmentOrder + 1⟩ := by
          unfold parseStep; rw [if_neg hb, hts]
        have hclose : (closeSegment st).map (fun seg => seg.order)
              = List.range (closeSegment st).length
            ∧ (closeSegment st).length
              = st.segments.length + (if st.currentSegment.isSome then 1 else 0) := by
          unfold closeSegment
          cases hcs : st.currentSegment with
          | none => simp [hcs, h1]
          | some seg =>
            rw [hcs] at hpend
            simp only [Option.isSome_some, Bool.true_and] at hpend
            have hcc : st.currentContent ≠ [] := by
              intro hx; rw [hx] at hpend; simp at hpend
            dsimp only
            rw [if_pos hcc]
            constructor
            · rw [List.map_append, h1, h2 seg hcs]
              simp [List.range_succ]
            · simp [hcs]
        rw [hstep]
        have hrec := ih ⟨closeSegment st,
            some ⟨pyStrip label, [], dmin, dmax, st.segmentOrder,
              determine_segment_type (pyStrip label)⟩,
            [], st.segmentOrder + 1⟩
          ⟨hclose.1, by intro sg hsg; cases hsg; simpa [hclose.2] using h3,
            by simp [hclose.2, h3]⟩
          (by simpa using hwfrest)
        rw [hrec]
        congr 1
        dsimp only
        simp only [Option.isSome_some, Option.isSome_none, Bool.false_eq_true, if_true, if_false]
        rw [hclose.2]
        omega
      | none =>
        rw [hts] at hwf
        simp only [Option.isSome_none, Bool.false_eq_true, if_false] at hwf
        cases hsimp : simpleTimingSearch (pyStrip l) with
        | some ab =>
          have hmm : hasMinuteMarker (pyStrip l) = true :=
            simpleTimingSearch_hasMinuteMarker _ ab hsimp
          rw [hsimp] at hwf
          simp only [Option.isSome_some, if_true] at hwf
          cases hcs : st.currentSegment with
          | some seg =>
            obtain ⟨a, b⟩ := ab
            have hstep : parseStep st l = { st with currentSegment := some { seg with duration_min := a, duration_max := b } } := by
              unfold parseStep; rw [if_neg hb, hts, hsimp, hcs]
            rw [hstep]
            obtain ⟨h1, h2, h3⟩ := hinv
            have hrec := ih ({ st with currentSegment := some { seg with duration_min := a, duration_max := b } })
              ⟨h1, by intro sg hsg; cases hsg; simpa using h2 seg hcs,
                by simpa [hcs] using h3⟩
              (by
                have h2c : st.currentContent.isEmpty = st.currentContent.isEmpty := rfl
                simpa [hcs] using hwf)
            rw [hrec]
            congr 1
            dsimp only
            simp only [Option.isSome_some, Option.isSome_none, Bool.false_eq_true, if_true, if_false]
            simp [hcs]
          | none =>
            have hstep : parseStep st l = st := by
              unfold parseStep; rw [if_neg hb, hts, hsimp, hcs]
              simp [hmm]
            rw [hstep]
            have hrec := ih st hinv hwf
            rw [hrec]
            congr 1
            rw [hcs]
            simp only [Option.isSome_some, Option.isSome_none, Bool.false_eq_true, if_true, if_false]
            omega
        | none =>
          rw [hsimp] at hwf
          simp only [Option.isSome_none, Bool.false_eq_true, if_false] at hwf
          by_cases hmm : hasMinuteMarker (pyStrip l) = true
          · rw [if_pos hmm] at hwf
            have hstep : parseStep st l = st := by
              unfold parseStep; rw [if_neg hb, hts, hsimp]
              cases hcs : st.currentSegment <;> simp [hmm]
            rw [hstep]
            have hrec := ih st hinv hwf
            rw [hrec]
            congr 1
            dsimp only
            simp only [Option.isSome_some, Option.isSome_none, Bool.false_eq_true, if_true, if_false]
            omega
          · rw [if_neg hmm] at hwf
            have hstep : parseStep st l
                = { st with currentContent := st.currentContent ++ [pyStrip l] } := by
              have hmmf : hasMinuteMarker (pyStrip l) = false := by simpa using hmm
              unfold parseStep; rw [if_neg hb, hts, hsimp]
              cases hcs : st.currentSegment <;> simp [hmmf]
            rw [hstep]
            have hrec := ih ({ st with currentContent := st.currentContent ++ [pyStrip l] })
              ⟨hinv.1, hinv.2.1, hinv.2.2⟩
              (by
                have hne : (st.currentContent ++ [pyStrip l]).isEmpty = false := by simp
                simpa [hne] using hwf)
            rw [hrec]
            congr 1
            dsimp only
            simp only [Option.isSome_some, Option.isSome_none, Bool.false_eq_true, if_true, if_false]
            omega

/-- C2 (amended): for a script whose timing-marker lines each accumulate at
least one content line before the next marker or the end of input
(`wfMarkedScript`), the parser returns exactly one segment per marker line,
with `order` fields exactly `0..N-1` in encounter order.  (Without that
hypothesis a marker whose segment buffers no content is dropped while still
consuming its order number, so fewer than `N` segments may come back and the
surviving orders need not be dense — see the counterexample.) -/
theorem parser_dense_orders (s : List Char)
    (hwf : wfMarkedScript false (parseLines s) = true) :
    (parse_lecture_segments s).length = countMarkerLines (parseLines s) ∧
      (parse_lecture_segments s).map (fun seg => seg.order)
        = List.range (countMarkerLines (parseLines s)) := by
  have hdef : parse_lecture_segments s
      = closeSegment ((parseLines s).foldl parseStep ⟨[], none, [], 0⟩) := rfl
  have hinv0 : ParseInv ⟨[], none, [], 0⟩ := by
    refine ⟨rfl, ?_, rfl⟩
    intro sg hsg
    cases hsg
  have hmain := parse_fold_wf (parseLines s) ⟨[], none, [], 0⟩ hinv0 (by simpa using hwf)
  constructor
  · have hlen := congrArg List.length hmain
    simpa [hdef] using hlen
  · simpa [hdef] using hmain

/-- Witness for C2 (amended): a two-marker script with content under each
marker parses to two segments with orders `[0, 1]`. -/
theorem parser_dense_orders_witness :
    (parse_lecture_segments
        "[Opening Hook: 3-5 minutes]\nwelcome\n[Recap: 2-3 minutes]\nbye".data).length
      = countMarkerLines (parseLines
          "[Opening Hook: 3-5 minutes]\nwelcome\n[Recap: 2-3 minutes]\nbye".data) ∧
      (parse_lecture_segments
          "[Opening Hook: 3-5 minutes]\nwelcome\n[Recap: 2-3 minutes]\nbye".data).map
          (fun seg => seg.order)
        = List.range (countMarkerLines (parseLines
            "[Opening Hook: 3-5 minutes]\nwelcome\n[Recap: 2-3 minutes]\nbye".data)) :=
  parser_dense_orders
    "[Opening Hook: 3-5 minutes]\nwelcome\n[Recap: 2-3 minutes]\nbye".data (by decide)

/-- Exact bookkeeping of one per-PDF iteration: counters move by exactly the
unit's outcome, old error entries survive, and a script failure records its
structured entry. -/
theorem processPdf_spec (id : List Char) (idx : ℕ) (r : CourseResult) (u : PdfUnit) :
    ((processPdf id idx r u).lessons_processed = r.lessons_processed) ∧
    ((processPdf id idx r u).successful_generations
        = r.successful_generations + (if u.script.isOk then 1 else 0)) ∧
    ((processPdf id idx r u).failed_generations
        = r.failed_generations + (if u.script.isOk then 0 else 1)) ∧
    (∀ e ∈ r.errors, e ∈ (processPdf id idx r u).errors) ∧
    (∀ msg, u.script = .error msg →
        (⟨id, some idx, "script_generation".data, msg⟩ : ErrEntry)
          ∈ (processPdf id idx r u).errors) := by
  refine ⟨?_, ?_, ?_, ?_, ?_⟩
  · cases hscript : u.script with
    | error e => simp [processPdf, hscript]
    | ok fileUrl =>
      cases fileUrl <;> cases haud : u.audio <;> simp [processPdf, hscript, haud]
  · cases hscript : u.script with
    | error e => simp [processPdf, hscript, Except.isOk, Except.toBool]
    | ok fileUrl =>
      cases fileUrl <;> cases haud : u.audio <;>
        simp [processPdf, hscript, haud, Except.isOk, Except.toBool]
  · cases hscript : u.script with
    | error e => simp [processPdf, hscript, Except.isOk, Except.toBool]
    | ok fileUrl =>
      cases fileUrl <;> cases haud : u.audio <;>
        simp [processPdf, hscript, haud, Except.isOk, Except.toBool]
  · intro x hx
    cases hscript : u.script with
    | error e =>
      simp [processPdf, hscript]
      exact Or.inl hx
    | ok fileUrl =>
      cases fileUrl <;> cases haud : u.audio <;> simp [processPdf, hscript, haud] <;> tauto
  · intro msg hmsg
    cases hscript : u.script with
    | error e =>
      rw [hscript] at hmsg
      injection hmsg with h
      subst h
      simp [processPdf, hscript]
    | ok fileUrl =>
      rw [hscript] at hmsg
      exact absurd hmsg (by simp)

/-- Exact bookkeeping of the inner `for idx, pdf_url in enumerate(...)` loop. -/
theorem processPdfs_spec (id : List Char) (us : List PdfUnit) :
    ∀ (idx : ℕ) (r : CourseResult),
    ((processPdfs id idx r us).lessons_processed = r.lessons_processed) ∧
    ((processPdfs id idx r us).successful_generations
        = r.successful_generations + (us.filter (fun u => u.script.isOk)).length) ∧
    ((processPdfs id idx r us).failed_generations
        = r.failed_generations + (us.filter (fun u => !u.script.isOk)).length) ∧
    (∀ e ∈ r.errors, e ∈ (processPdfs id idx r us).errors) ∧
    (∀ u ∈ us, ∀ msg, u.script = .error msg →
        ∃ i, (⟨id, some i, "script_generation".data, msg⟩ : ErrEntry)
          ∈ (processPdfs id idx r us).errors) := by
  induction us with
  | nil =>
    intro idx r
    refine ⟨rfl, by simp [processPdfs], by simp [processPdfs], ?_, ?_⟩
    · intro e he; simpa [processPdfs] using he
    · intro u hu; simp at hu
  | cons u us' ih =>
    intro idx r
    obtain ⟨hl, hs, hf, hmono, hrecord⟩ := processPdf_spec id idx r u
    obtain ⟨ihl, ihs, ihf, ihmono, ihrecord⟩ := ih (idx + 1) (processPdf id idx r u)
    have hdef : processPdfs id idx r (u :: us')
        = processPdfs id (idx + 1) (processPdf id idx r u) us' := rfl
    refine ⟨?_, ?_, ?_, ?_, ?_⟩
    · rw [hdef, ihl, hl]
    · rw [hdef, ihs, hs, List.filter_cons]
      by_cases hu : u.script.isOk <;> simp [hu] <;> omega
    · rw [hdef, ihf, hf, List.filter_cons]
      by_cases hu : u.script.isOk <;> simp [hu] <;> omega
    · intro e he
      rw [hdef]
      exact ihmono e (hmono e he)
    · intro v hv msg hmsg
      rw [hdef]
      rcases List.mem_cons.mp hv with hv0 | hv'
      · subst hv0
        exact ⟨idx, ihmono _ (hrecord msg hmsg)⟩
      · exact ihrecord v hv' msg hmsg

/-- Exact bookkeeping of `process_course_for_scripts` over all lessons. -/
theorem process_course_spec (lessons : List Lesson) :
    ((process_course_for_scripts lessons).lessons_processed = lessons.length) ∧
    ((process_course_for_scripts lessons).successful_generations = countScriptOk lessons) ∧
    ((process_course_for_scripts lessons).failed_generations = countScriptFail lessons) ∧
    (∀ lesson ∈ lessons, ∀ u ∈ lesson.pdfs, ∀ msg, u.script = .error msg →
        ∃ i, (⟨lesson.id, some i, "script_generation".data, msg⟩ : ErrEntry)
          ∈ (process_course_for_scripts lessons).errors) := by
  have main : ∀ (ls : List Lesson) (r : CourseResult),
      ((ls.foldl (fun r lesson => processPdfs lesson.id 1 r lesson.pdfs) r).lessons_processed
          = r.lessons_processed) ∧
      ((ls.foldl (fun r lesson => processPdfs lesson.id 1 r lesson.pdfs) r).successful_generations
          = r.successful_generations + countScriptOk ls) ∧
      ((ls.foldl (fun r lesson => processPdfs lesson.id 1 r lesson.pdfs) r).failed_generations
          = r.failed_generations + countScriptFail ls) ∧
      (∀ e ∈ r.errors,
          e ∈ (ls.foldl (fun r lesson => processPdfs lesson.id 1 r lesson.pdfs) r).errors) ∧
      (∀ lesson ∈ ls, ∀ u ∈ lesson.pdfs, ∀ msg, u.script = .error msg →
          ∃ i, (⟨lesson.id, some i, "script_generation".data, msg⟩ : ErrEntry)
            ∈ (ls.foldl (fun r lesson => processPdfs lesson.id 1 r lesson.pdfs) r).errors) := by
    intro ls
    induction ls with
    | nil =>
      intro r
      refine ⟨rfl, by simp [countScriptOk], by simp [countScriptFail], fun e he => he, ?_⟩
      intro lesson hl; simp at hl
    | cons lesson ls' ih =>
      intro r
      obtain ⟨hl, hs, hf, hmono, hrecord⟩ := processPdfs_spec lesson.id lesson.pdfs 1 r
      obtain ⟨ihl, ihs, ihf, ihmono, ihrecord⟩ := ih (processPdfs lesson.id 1 r lesson.pdfs)
      rw [List.foldl_cons]
      refine ⟨?_, ?_, ?_, ?_, ?_⟩
      · rw [ihl, hl]
      · rw [ihs, hs]
        simp [countScriptOk]
        omega
      · rw [ihf, hf]
        simp [countScriptFail]
        omega
      · intro e he
        exact ihmono e (hmono e he)
      · intro les hles u hu msg hmsg
        rcases List.mem_cons.mp hles with h0 | h'
        · subst h0
          obtain ⟨i, hi⟩ := hrecord u hu msg hmsg
          exact ⟨i, ihmono _ hi⟩
        · exact ihrecord les h' u hu msg hmsg
  obtain ⟨h1, h2, h3, h4, h5⟩ := main lessons ⟨lessons.length, 0, 0, 0, 0, []⟩
  exact ⟨h1, by simpa using h2, by simpa using h3, h5⟩

/-- C7: the batch always completes with a summary whose successful / failed
script-generation counts are exactly the numbers of per-PDF units that
succeeded / failed, one unit's failure leaving its siblings processed; every
failing unit is recorded as a structured error entry carrying its lesson id,
the stage `script_generation`, and the error message. -/
theorem batch_isolates_unit_failures (courses : List (List Lesson)) :
    ((generate_daily_scripts courses).total_courses = courses.length) ∧
    ((generate_daily_scripts courses).total_lessons_processed
        = (courses.map List.length).sum) ∧
    ((generate_daily_scripts courses).successful_generations
        = (courses.map countScriptOk).sum) ∧
    ((generate_daily_scripts courses).failed_generations
        = (courses.map countScriptFail).sum) ∧
    (∀ course ∈ courses, ∀ lesson ∈ course, ∀ u ∈ lesson.pdfs, ∀ msg,
        u.script = .error msg →
          ∃ i, (⟨lesson.id, some i, "script_generation".data, msg⟩ : ErrEntry)
            ∈ (generate_daily_scripts courses).errors) := by
  have main : ∀ (cs : List (List Lesson)) (s : BatchSummary),
      ((cs.foldl dailyStep s).total_courses = s.total_courses) ∧
      ((cs.foldl dailyStep s).total_lessons_processed
          = s.total_lessons_processed + (cs.map List.length).sum) ∧
      ((cs.foldl dailyStep s).successful_generations
          = s.successful_generations + (cs.map countScriptOk).sum) ∧
      ((cs.foldl dailyStep s).failed_generations
          = s.failed_generations + (cs.map countScriptFail).sum) ∧
      (∀ e ∈ s.errors, e ∈ (cs.foldl dailyStep s).errors) ∧
      (∀ course ∈ cs, ∀ lesson ∈ course, ∀ u ∈ lesson.pdfs, ∀ msg,
          u.script = .error msg →
            ∃ i, (⟨lesson.id, some i, "script_generation".data, msg⟩ : ErrEntry)
              ∈ (cs.foldl dailyStep s).errors) := by
    intro cs
    induction cs with
    | nil =>
      intro s
      refine ⟨rfl, by simp, by simp, by simp, fun e he => he, ?_⟩
      intro course hc; simp at hc
    | cons course cs' ih =>
      intro s
      obtain ⟨hcl, hcs2, hcs3, hcrec⟩ := process_course_spec course
      obtain ⟨ihc, ihl, ihs, ihf, ihmono, ihrecord⟩ := ih (dailyStep s course)
      rw [List.foldl_cons]
      refine ⟨?_, ?_, ?_, ?_, ?_, ?_⟩
      · rw [ihc]; rfl
      · rw [ihl]
        simp [dailyStep, hcl]
        omega
      · rw [ihs]
        simp [dailyStep, hcs2]
        omega
      · rw [ihf]
        simp [dailyStep, hcs3]
        omega
      · intro e he
        refine ihmono e ?_
        simp [dailyStep]
        exact Or.inl he
      · intro crs hcrs lesson hles u hu msg hmsg
        rcases List.mem_cons.mp hcrs with h0 | h'
        · subst h0
          obtain ⟨i, hi⟩ := hcrec lesson hles u hu msg hmsg
          refine ⟨i, ihmono _ ?_⟩
          simp [dailyStep]
          exact Or.inr hi
        · exact ihrecord crs h' lesson hles u hu msg hmsg
  obtain ⟨h1, h2, h3, h4, h5, h6⟩ := main courses ⟨courses.length, 0, 0, 0, 0, 0, []⟩
  exact ⟨h1, by simpa using h2, by simpa using h3, by simpa using h4, h6⟩

/-- Witness for C7: a batch of three units where unit `L2` throws during
script synthesis yields 2 successful and 1 failed script generation, plus a
structured error entry referencing `L2`. -/
theorem batch_isolates_unit_failures_witness :
    ((generate_daily_scripts
        [[⟨"L1".data, [⟨.ok true, .ok⟩]⟩, ⟨"L2".data, [⟨.error "boom".data, .ok⟩]⟩,
          ⟨"L3".data, [⟨.ok true, .ok⟩]⟩]]).successful_generations = 2) ∧
    ((generate_daily_scripts
        [[⟨"L1".data, [⟨.ok true, .ok⟩]⟩, ⟨"L2".data, [⟨.error "boom".data, .ok⟩]⟩,
          ⟨"L3".data, [⟨.ok true, .ok⟩]⟩]]).failed_generations = 1) ∧
    (∃ i, (⟨"L2".data, some i, "script_generation".data, "boom".data⟩ : ErrEntry)
        ∈ (generate_daily_scripts
            [[⟨"L1".data, [⟨.ok true, .ok⟩]⟩, ⟨"L2".data, [⟨.error "boom".data, .ok⟩]⟩,
              ⟨"L3".data, [⟨.ok true, .ok⟩]⟩]]).errors) := by
  have h := batch_isolates_unit_failures
    [[⟨"L1".data, [⟨.ok true, .ok⟩]⟩, ⟨"L2".data, [⟨.error "boom".data, .ok⟩]⟩,
      ⟨"L3".data, [⟨.ok true, .ok⟩]⟩]]
  refine ⟨?_, ?_, ?_⟩
  · rw [h.2.2.1]; rfl
  · rw [h.2.2.2.1]; rfl
  · exact h.2.2.2.2 _ (List.mem_singleton.mpr rfl)
      ⟨"L2".data, [⟨.error "boom".data, .ok⟩]⟩
      (List.mem_cons_of_mem _ (List.mem_cons_self _ _))
      ⟨.error "boom".data, .ok⟩ (List.mem_singleton.mpr rfl) "boom".data rfl

/-- Stripping never lengthens a string. -/
theorem pyStrip_length_le (cs : List Char) : (pyStrip cs).length ≤ cs.length := by
  unfold pyStrip
  calc ((cs.dropWhile isPyWs).reverse.dropWhile isPyWs).reverse.length
      = ((cs.dropWhile isPyWs).reverse.dropWhile isPyWs).length := List.length_reverse _
    _ ≤ (cs.dropWhile isPyWs).reverse.length := (List.dropWhile_suffix _).length_le
    _ = (cs.dropWhile isPyWs).length := List.length_reverse _
    _ ≤ cs.length := (List.dropWhile_suffix _).length_le

/-- With sufficient fuel, every whitespace character surviving
`re.sub(r'\s+', ' ', ·)` is a plain space. -/
theorem collapseWsRuns_ws_only (fuel : ℕ) :
    ∀ cs : List Char, cs.length < fuel →
      ∀ c ∈ collapseWsRuns fuel cs, isPyWs c = true → c = ' ' := by
  induction fuel with
  | zero => intro cs h; omega
  | succ f ih =>
    intro cs hlen c hc hws
    match cs with
    | [] => simp [collapseWsRuns] at hc
    | x :: rest =>
      rw [collapseWsRuns] at hc
      by_cases hx : isPyWs x
      · rw [if_pos hx] at hc
        rcases List.mem_cons.mp hc with h0 | h'
        · exact h0
        · refine ih (rest.dropWhile isPyWs) ?_ c h' hws
          have := (List.dropWhile_suffix (l := rest) isPyWs).length_le
          simp at hlen
          omega
      · rw [if_neg hx] at hc
        rcases List.mem_cons.mp hc with h0 | h'
        · subst h0; exact absurd hws (by simpa using hx)
        · refine ih rest ?_ c h' hws
          simp at hlen
          omega

/-- The collapsed text contains no newline. -/
theorem collapseWs_no_nl (text : List Char) : ('\n' : Char) ∉ collapseWs text := by
  intro hmem
  have := collapseWsRuns_ws_only ((pyStrip text).length + 1) (pyStrip text)
    (by omega) '\n' hmem (by decide)
  exact absurd this (by decide)

/-- Splitting on `\n\n` is trivial for newline-free text. -/
theorem splitParagraphs_no_nl (fuel : ℕ) :
    ∀ cs : List Char, ('\n' : Char) ∉ cs → splitParagraphs fuel cs = [cs] := by
  induction fuel with
  | zero => intro cs _; cases cs <;> rfl
  | succ f ih =>
    intro cs hnl
    match cs with
    | [] => rfl
    | c :: rest =>
      have hc : c ≠ '\n' := fun h => hnl (h ▸ List.mem_cons_self c rest)
      have hrest : ('\n' : Char) ∉ rest := fun h => hnl (List.mem_cons_of_mem c h)
      rw [splitParagraphs]
      rw [if_neg hc, ih rest hrest]
      intro rest2 hr2
      exact hrest (hr2 ▸ List.mem_cons_self '\n' rest2)

/-- One step of the sentence loop preserves the chunk invariant: every emitted
chunk either fits the budget or is a stripped sentence, and the running chunk
either fits the budget or is a sentence. -/
theorem sentenceFold_step (S : List (List Char)) (st : ChunkState) (s : List Char)
    (hs : s ∈ S)
    (hinv : (∀ x ∈ st.chunks, x.length ≤ 4000 ∨ ∃ u ∈ S, x = pyStrip u) ∧
      (st.cur.length ≤ 4000 ∨ st.cur ∈ S)) :
    (∀ x ∈ (sentenceFold st s).chunks, x.length ≤ 4000 ∨ ∃ u ∈ S, x = pyStrip u) ∧
      ((sentenceFold st s).cur.length ≤ 4000 ∨ (sentenceFold st s).cur ∈ S) := by
  obtain ⟨hchunks, hcur⟩ := hinv
  unfold sentenceFold
  by_cases hcond : st.cur.length + s.length + 1 > 4000 ∧ st.cur ≠ []
  · rw [if_pos hcond]
    dsimp only
    rw [if_neg (by simp)]
    constructor
    · intro x hx
      rcases List.mem_append.mp hx with h' | h0
      · exact hchunks x h'
      · rcases List.mem_singleton.mp h0 with rfl
        rcases hcur with hle | hmem
        · exact Or.inl ((pyStrip_length_le _).trans hle)
        · exact Or.inr ⟨st.cur, hmem, rfl⟩
    · exact Or.inr hs
  · rw [if_neg hcond]
    dsimp only
    by_cases hne : st.cur ≠ []
    · rw [if_pos hne]
      refine ⟨hchunks, Or.inl ?_⟩
      have hbound : ¬(st.cur.length + s.length + 1 > 4000) := fun hgt => hcond ⟨hgt, hne⟩
      simp only [List.length_append, List.length_cons]
      omega
    · rw [if_neg hne]
      exact ⟨hchunks, Or.inr hs⟩

/-- The sentence loop preserves the chunk invariant. -/
theorem sentenceFold_inv (S : List (List Char)) (l : List (List Char)) :
    ∀ st : ChunkState, (∀ s ∈ l, s ∈ S) →
    ((∀ x ∈ st.chunks, x.length ≤ 4000 ∨ ∃ u ∈ S, x = pyStrip u) ∧
      (st.cur.length ≤ 4000 ∨ st.cur ∈ S)) →
    ((∀ x ∈ (l.foldl sentenceFold st).chunks, x.length ≤ 4000 ∨ ∃ u ∈ S, x = pyStrip u) ∧
      ((l.foldl sentenceFold st).cur.length ≤ 4000 ∨ (l.foldl sentenceFold st).cur ∈ S)) := by
  induction l with
  | nil => intro st _ hinv; exact hinv
  | cons s l' ih =>
    intro st hl hinv
    rw [List.foldl_cons]
    exact ih (sentenceFold st s) (fun x hx => hl x (List.mem_cons_of_mem s hx))
      (sentenceFold_step S st s (hl s (List.mem_cons_self s l')) hinv)

/-- C6: every chunk emitted by `split_text_into_chunks` fits the 4000-character
budget unless it is a single (stripped) sentence of the collapsed text that
alone exceeds the budget, and every emitted chunk is strictly longer than the
10-character noise threshold after stripping. -/
theorem chunker_respects_budget (text : List Char) (c : List Char)
    (hc : c ∈ split_text_into_chunks text) :
    (c.length ≤ 4000 ∨ ∃ u ∈ sentenceSplit (collapseWs text), c = pyStrip u) ∧
      10 < (pyStrip c).length := by
  set t := collapseWs text with ht
  have hdef : split_text_into_chunks text
      = (if pyStrip ((splitParagraphs (t.length + 1) t).foldl paragraphFold ⟨[], []⟩).cur ≠ []
          then ((splitParagraphs (t.length + 1) t).foldl paragraphFold ⟨[], []⟩).chunks
              ++ [pyStrip ((splitParagraphs (t.length + 1) t).foldl paragraphFold ⟨[], []⟩).cur]
          else ((splitParagraphs (t.length + 1) t).foldl paragraphFold ⟨[], []⟩).chunks).filter
        (fun x => 10 < (pyStrip x).length) := rfl
  have hpar : splitParagraphs (t.length + 1) t = [t] :=
    splitParagraphs_no_nl _ t (collapseWs_no_nl text)
  rw [hdef, hpar] at hc
  simp only [List.foldl_cons, List.foldl_nil] at hc
  by_cases hlong : t.length > 4000
  · have hstep1 : paragraphFold ⟨[], []⟩ t
        = (sentenceSplit t).foldl sentenceFold ⟨[], []⟩ := by
      unfold paragraphFold
      simp [hlong]
    rw [hstep1] at hc
    have hinv := sentenceFold_inv (sentenceSplit t) (sentenceSplit t) ⟨[], []⟩
      (fun s hs => hs) ⟨fun x hx => absurd hx (by simp), Or.inl (by simp)⟩
    set st := (sentenceSplit t).foldl sentenceFold (⟨[], []⟩ : ChunkState) with hst
    have hmem := List.mem_filter.mp hc
    have hnoise : 10 < (pyStrip c).length := by simpa using hmem.2
    refine ⟨?_, hnoise⟩
    by_cases hfin : pyStrip st.cur ≠ []
    · rw [if_pos hfin] at hmem
      rcases List.mem_append.mp hmem.1 with h' | h0
      · exact hinv.1 c h'
      · rcases List.mem_singleton.mp h0 with rfl
        rcases hinv.2 with hle | hsent
        · exact Or.inl ((pyStrip_length_le _).trans hle)
        · exact Or.inr ⟨st.cur, hsent, rfl⟩
    · rw [if_neg hfin] at hmem
      exact hinv.1 c hmem.1
  · have hstep1 : paragraphFold ⟨[], []⟩ t = ⟨[], t⟩ := by
      unfold paragraphFold
      simp [hlong]
    rw [hstep1] at hc
    have hmem := List.mem_filter.mp hc
    have hnoise : 10 < (pyStrip c).length := by simpa using hmem.2
    refine ⟨?_, hnoise⟩
    by_cases hfin : pyStrip t ≠ []
    · rw [if_pos hfin] at hmem
      have h0 : c = pyStrip t := by
        have := hmem.1
        simpa using this
      subst h0
      exact Or.inl ((pyStrip_length_le _).trans (by omega))
    · rw [if_neg hfin] at hmem
      exact absurd hmem.1 (by simp)

/-- Witness for C6: a short plain text comes back as one chunk, within budget
and above the noise threshold. -/
theorem chunker_respects_budget_witness :
    (("hello world this is a test.".data.length ≤ 4000
        ∨ ∃ u ∈ sentenceSplit (collapseWs "hello world this is a test.".data),
            "hello world this is a test.".data = pyStrip u) ∧
      10 < (pyStrip "hello world this is a test.".data).length) :=
  chunker_respects_budget "hello world this is a test.".data
    "hello world this is a test.".data (by decide)

/-- Counterexample to C8 as stated: on `a \t b` (letter, space, tab, space,
letter) the cleaner first collapses space runs and only afterwards converts
the tab to a space, leaving `a   b` with a three-space run; a second
application collapses it to `a b`, so `clean (clean x) ≠ clean x`. -/
theorem clean_not_idempotent_counterexample :
    clean_segment_content_for_tts (clean_segment_content_for_tts "a \t b".data)
      ≠ clean_segment_content_for_tts "a \t b".data := by decide

/-- Characters outside the plain lowercase-and-space alphabet do not occur in
a plain line. -/
theorem plain_not_mem (cs : List Char) (hall : ∀ c ∈ cs, isPlainChar c = true)
    (x : Char) (hx : isPlainChar x = false) : x ∉ cs := by
  intro hmem
  rw [hall x hmem] at hx
  exact Bool.true_eq_false.mp hx

/-- A plain character other than a space is no ASCII whitespace. -/
theorem plainChar_not_ws (c : Char) (hp : isPlainChar c = true) (hs : c ≠ ' ') :
    isPyWs c = false := by
  by_contra hx
  have hws : isPyWs c = true := by
    cases h : isPyWs c
    · exact absurd h hx
    · rfl
  unfold isPyWs at hws
  simp only [Bool.or_eq_true, beq_iff_eq] at hws
  rcases hws with ((((h | h) | h) | h) | h) | h
  · exact hs h
  all_goals subst h
  all_goals simp [isPlainChar] at hp

/-- Embeds `removeTimeStamps` is the identity on bracket-free text, whatever the fuel. -/
theorem removeTimeStamps_id (cs : List Char) (h : ('[' : Char) ∉ cs) :
    ∀ fuel, removeTimeStamps fuel cs = cs := by
  induction cs with
  | nil => intro fuel; cases fuel <;> rfl
  | cons c rest ih =>
    intro fuel
    cases fuel with
    | zero => rfl
    | succ f =>
      have hc : c ≠ '[' := fun he => h (he ▸ List.mem_cons_self c rest)
      rw [removeTimeStamps, if_neg hc, ih (fun hm => h (List.mem_cons_of_mem c hm)) f]

/-- Embeds `removeMinuteRanges` is the identity on bracket-free text. -/
theorem removeMinuteRanges_id (cs : List Char) (h : ('[' : Char) ∉ cs) :
    ∀ fuel, removeMinuteRanges fuel cs = cs := by
  induction cs with
  | nil => intro fuel; cases fuel <;> rfl
  | cons c rest ih =>
    intro fuel
    cases fuel with
    | zero => rfl
    | succ f =>
      have hc : c ≠ '[' := fun he => h (he ▸ List.mem_cons_self c rest)
      rw [removeMinuteRanges, if_neg hc, ih (fun hm => h (List.mem_cons_of_mem c hm)) f]

/-- Embeds `removeBrackets` is the identity on bracket-free text. -/
theorem removeBrackets_id (cs : List Char) (h : ('[' : Char) ∉ cs) :
    ∀ fuel, removeBrackets fuel cs = cs := by
  induction cs with
  | nil => intro fuel; cases fuel <;> rfl
  | cons c rest ih =>
    intro fuel
    cases fuel with
    | zero => rfl
    | succ f =>
      have hc : c ≠ '[' := fun he => h (he ▸ List.mem_cons_self c rest)
      rw [removeBrackets, if_neg hc, ih (fun hm => h (List.mem_cons_of_mem c hm)) f]

/-- Embeds `removeBold` is the identity on asterisk-free text. -/
theorem removeBold_id (cs : List Char) (h : ('*' : Char) ∉ cs) :
    ∀ fuel, removeBold fuel cs = cs := by
  induction cs with
  | nil => intro fuel; cases fuel <;> rfl
  | cons c rest ih =>
    intro fuel
    cases fuel with
    | zero => rfl
    | succ f =>
      cases rest with
      | nil => rfl
      | cons d rest2 =>
        have hc : c ≠ '*' := fun he => h (he ▸ List.mem_cons_self c (d :: rest2))
        rw [removeBold, if_neg (fun hand => hc hand.1),
          ih (fun hm => h (List.mem_cons_of_mem c hm)) f]

/-- Embeds `removeItalics` is the identity on asterisk-free text. -/
theorem removeItalics_id (cs : List Char) (h : ('*' : Char) ∉ cs) :
    ∀ fuel, removeItalics fuel cs = cs := by
  induction cs with
  | nil => intro fuel; cases fuel <;> rfl
  | cons c rest ih =>
    intro fuel
    cases fuel with
    | zero => rfl
    | succ f =>
      have hc : c ≠ '*' := fun he => h (he ▸ List.mem_cons_self c rest)
      rw [removeItalics, if_neg hc, ih (fun hm => h (List.mem_cons_of_mem c hm)) f]

/-- Embeds `removeHashes` is the identity on hash-free text. -/
theorem removeHashes_id (cs : List Char) (h : ('#' : Char) ∉ cs) :
    ∀ fuel, removeHashes fuel cs = cs := by
  induction cs with
  | nil => intro fuel; cases fuel <;> rfl
  | cons c rest ih =>
    intro fuel
    cases fuel with
    | zero => rfl
    | succ f =>
      have hc : c ≠ '#' := fun he => h (he ▸ List.mem_cons_self c rest)
      rw [removeHashes, if_neg hc, ih (fun hm => h (List.mem_cons_of_mem c hm)) f]

/-- Away from line starts, `removeBullets` copies newline-free text. -/
theorem removeBullets_copy (cs : List Char) (h : ('\n' : Char) ∉ cs) :
    ∀ fuel, removeBullets fuel false cs = cs := by
  induction cs with
  | nil => intro fuel; cases fuel <;> rfl
  | cons c rest ih =>
    intro fuel
    cases fuel with
    | zero => rfl
    | succ f =>
      have hc : (c == '\n') = false :=
        beq_eq_false_iff_ne.mpr (fun he => h (he ▸ List.mem_cons_self c rest))
      rw [removeBullets, if_neg (by simp), hc,
        ih (fun hm => h (List.mem_cons_of_mem c hm)) f]

/-- Embeds `removeBullets` is the identity on a newline-free line whose first
character is neither whitespace nor a list bullet. -/
theorem removeBullets_id (cs : List Char) (h : ('\n' : Char) ∉ cs)
    (hhead : ∀ c, cs.head? = some c → isPyWs c = false ∧ c ≠ '-' ∧ c ≠ '•') :
    ∀ fuel, removeBullets fuel true cs = cs := by
  cases cs with
  | nil => intro fuel; cases fuel <;> rfl
  | cons c rest =>
    intro fuel
    cases fuel with
    | zero => rfl
    | succ f =>
      obtain ⟨hws, hdash, hbul⟩ := hhead c rfl
      have hba : bulletAt (c :: rest) = none := by
        unfold bulletAt
        rw [List.dropWhile_cons, if_neg (by simp [hws])]
        dsimp only
        rw [if_neg (by simp [hdash, hbul])]
      have hc : (c == '\n') = false :=
        beq_eq_false_iff_ne.mpr (fun he => h (he ▸ List.mem_cons_self c rest))
      rw [removeBullets, if_pos rfl, hba, hc,
        removeBullets_copy rest (fun hm => h (List.mem_cons_of_mem c hm)) f]

/-- Away from line starts, `removeNumLists` copies newline-free text. -/
theorem removeNumLists_copy (cs : List Char) (h : ('\n' : Char) ∉ cs) :
    ∀ fuel, removeNumLists fuel false cs = cs := by
  induction cs with
  | nil => intro fuel; cases fuel <;> rfl
  | cons c rest ih =>
    intro fuel
    cases fuel with
    | zero => rfl
    | succ f =>
      have hc : (c == '\n') = false :=
        beq_eq_false_iff_ne.mpr (fun he => h (he ▸ List.mem_cons_self c rest))
      rw [removeNumLists, if_neg (by simp), hc,
        ih (fun hm => h (List.mem_cons_of_mem c hm)) f]

/-- Embeds `removeNumLists` is the identity on a newline-free line whose first
character is neither whitespace, a digit, nor a period. -/
theorem removeNumLists_id (cs : List Char) (h : ('\n' : Char) ∉ cs)
    (hhead : ∀ c, cs.head? = some c → isPyWs c = false ∧ c.isDigit = false ∧ c ≠ '.') :
    ∀ fuel, removeNumLists fuel true cs = cs := by
  cases cs with
  | nil => intro fuel; cases fuel <;> rfl
  | cons c rest =>
    intro fuel
    cases fuel with
    | zero => rfl
    | succ f =>
      obtain ⟨hws, hdig, hdot⟩ := hhead c rfl
      have hna : numListAt (c :: rest) = none := by
        unfold numListAt
        rw [List.dropWhile_cons, if_neg (by simp [hws])]
        dsimp only
        rw [List.dropWhile_cons, if_neg (by simp [hdig])]
        split
        · next x r2 heq =>
            injection heq with h1 h2
            exact absurd h1 hdot
        · rfl
      have hc : (c == '\n') = false :=
        beq_eq_false_iff_ne.mpr (fun he => h (he ▸ List.mem_cons_self c rest))
      rw [removeNumLists, if_pos rfl, hna, hc,
        removeNumLists_copy rest (fun hm => h (List.mem_cons_of_mem c hm)) f]

/-- Embeds `collapseBlankLines` is the identity on newline-free text. -/
theorem collapseBlankLines_id (cs : List Char) (h : ('\n' : Char) ∉ cs) :
    ∀ fuel, collapseBlankLines fuel cs = cs := by
  induction cs with
  | nil => intro fuel; cases fuel <;> rfl
  | cons c rest ih =>
    intro fuel
    cases fuel with
    | zero => rfl
    | succ f =>
      have hc : c ≠ '\n' := fun he => h (he ▸ List.mem_cons_self c rest)
      rw [collapseBlankLines, if_neg hc, ih (fun hm => h (List.mem_cons_of_mem c hm)) f]

/-- Embeds `collapseSpaces` is the identity when no two spaces are adjacent. -/
theorem collapseSpaces_id (cs : List Char) (h : hasDoubleSpace cs = false) :
    ∀ fuel, collapseSpaces fuel cs = cs := by
  induction cs with
  | nil => intro fuel; cases fuel <;> rfl
  | cons c rest ih =>
    intro fuel
    cases fuel with
    | zero => rfl
    | succ f =>
      have hrest : hasDoubleSpace rest = false := by
        cases rest with
        | nil => rfl
        | cons d rest2 =>
          rw [hasDoubleSpace] at h
          exact (Bool.or_eq_false_iff.mp h).2
      by_cases hc : c = ' '
      · subst hc
        have hd : rest.head? ≠ some ' ' := by
          cases rest with
          | nil => simp
          | cons d rest2 =>
            rw [hasDoubleSpace] at h
            have := (Bool.or_eq_false_iff.mp h).1
            simp only [Bool.and_eq_false_iff, beq_eq_false_iff_ne] at this
            rcases this with h' | h'
            · exact absurd rfl h'
            · simp [h']
        have hrun : (' ' :: rest).takeWhile (fun x => x == ' ') = [' '] := by
          rw [List.takeWhile_cons, if_pos (by simp)]
          cases rest with
          | nil => rfl
          | cons d rest2 =>
            have hdne : d ≠ ' ' := by
              intro he
              exact hd (by simp [he])
            rw [List.takeWhile_cons, if_neg (by simp [hdne])]
        rw [collapseSpaces, if_pos rfl, hrun]
        rw [if_neg (by norm_num)]
        rw [ih hrest f]
      · rw [collapseSpaces, if_neg hc, ih hrest f]

/-- Embeds `tabsToSpaces` is the identity on tab-free text. -/
theorem tabsToSpaces_id (cs : List Char) (h : ('\t' : Char) ∉ cs) :
    tabsToSpaces cs = cs := by
  induction cs with
  | nil => rfl
  | cons c rest ih =>
    have hc : c ≠ '\t' := by
      intro he
      apply h
      rw [← he]
      exact List.mem_cons_self _ _
    unfold tabsToSpaces at ih ⊢
    rw [List.map_cons, ih (fun hm => h (List.mem_cons_of_mem c hm)), if_neg hc]

/-- Embeds `splitChar` is trivial when the separator does not occur. -/
theorem splitChar_no_sep (sep : Char) (cs : List Char) (h : sep ∉ cs) :
    splitChar sep cs = [cs] := by
  induction cs with
  | nil => rfl
  | cons c rest ih =>
    have hc : c ≠ sep := by
      intro he
      apply h
      rw [← he]
      exact List.mem_cons_self _ _
    rw [splitChar, if_neg hc, ih (fun hm => h (List.mem_cons_of_mem c hm))]

/-- Embeds `pyStrip` is the identity when both ends are non-whitespace. -/
theorem pyStrip_id (cs : List Char)
    (hhead : ∀ c, cs.head? = some c → isPyWs c = false)
    (hlast : ∀ c, cs.getLast? = some c → isPyWs c = false) : pyStrip cs = cs := by
  have hdw : ∀ (l : List Char), (∀ c, l.head? = some c → isPyWs c = false) →
      l.dropWhile isPyWs = l := by
    intro l hl
    cases l with
    | nil => rfl
    | cons c rest => rw [List.dropWhile_cons, if_neg (by simp [hl c rfl])]
  unfold pyStrip
  rw [hdw cs hhead, hdw cs.reverse
    (fun c hc => hlast c (by rwa [List.getLast?_eq_head?_reverse])),
    List.reverse_reverse]

/-- The TTS line filter keeps a plain line that mentions neither forbidden
phrase. -/
theorem tts_line_kept_plain (cs : List Char) (hplain : PlainLine cs)
    (hva : containsSub "visual aid".data (pyLower cs) = false)
    (hss : containsSub "show slide".data (pyLower cs) = false) :
    tts_line_kept cs = true := by
  obtain ⟨hne, hall, hhead, hlast, hds⟩ := hplain
  cases cs with
  | nil => exact absurd rfl hne
  | cons c rest =>
    have hp : isPlainChar c = true := hall c (List.mem_cons_self c rest)
    have hsp : c ≠ ' ' := fun he => hhead (by simp [he])
    have hheadws : ∀ x, (c :: rest).head? = some x → isPyWs x = false := by
      intro x hx
      injection hx with hx
      subst hx
      exact plainChar_not_ws c hp hsp
    have hlastws : ∀ x, (c :: rest).getLast? = some x → isPyWs x = false := by
      intro x hx
      have hxm : x ∈ c :: rest := List.mem_of_getLast?_eq_some hx
      refine plainChar_not_ws x (hall x hxm) (fun he => hlast ?_)
      rw [← he]; exact hx
    have hstrip : pyStrip (c :: rest) = c :: rest := pyStrip_id _ hheadws hlastws
    have hstart : ∀ (p : Char) (ps : List Char), (p == c) = false →
        startsWith (p :: ps) (c :: rest) = false := by
      intro p ps hpc
      unfold startsWith
      rw [List.isPrefixOf_cons₂, hpc, Bool.false_and]
    have hneq : ∀ x : Char, isPlainChar x = false → (x == c) = false := by
      intro x hx
      refine beq_eq_false_iff_ne.mpr (fun he => ?_)
      rw [← he] at hp
      rw [hp] at hx
      exact Bool.true_eq_false.mp hx
    have hN : startsWith "Note:".data (c :: rest) = false := by
      have he : "Note:".data = 'N' :: "ote:".data := rfl
      rw [he]
      exact hstart 'N' _ (hneq 'N' (by decide))
    have hI : startsWith "Instruction:".data (c :: rest) = false := by
      have he : "Instruction:".data = 'I' :: "nstruction:".data := rfl
      rw [he]
      exact hstart 'I' _ (hneq 'I' (by decide))
    have hT : startsWith "Teacher:".data (c :: rest) = false := by
      have he : "Teacher:".data = 'T' :: "eacher:".data := rfl
      rw [he]
      exact hstart 'T' _ (hneq 'T' (by decide))
    unfold tts_line_kept
    rw [hstrip]
    simp [hN, hI, hT, hva, hss]

/-- Embeds `clean_segment_content_for_tts` maps an already-clean plain line to
itself. -/
theorem clean_plain_id (cs : List Char) (hplain : PlainLine cs)
    (hva : containsSub "visual aid".data (pyLower cs) = false)
    (hss : containsSub "show slide".data (pyLower cs) = false) :
    clean_segment_content_for_tts cs = cs := by
  obtain ⟨hne, hall, hhead, hlast, hds⟩ := hplain
  have hnb : ('[' : Char) ∉ cs := plain_not_mem cs hall '[' (by decide)
  have hna : ('*' : Char) ∉ cs := plain_not_mem cs hall '*' (by decide)
  have hnh : ('#' : Char) ∉ cs := plain_not_mem cs hall '#' (by decide)
  have hnn : ('\n' : Char) ∉ cs := plain_not_mem cs hall '\n' (by decide)
  have hnt : ('\t' : Char) ∉ cs := plain_not_mem cs hall '\t' (by decide)
  have hheadfacts : ∀ x, cs.head? = some x →
      isPyWs x = false ∧ isPlainChar x = true ∧ x ≠ ' ' := by
    intro x hx
    have hxm : x ∈ cs := List.mem_of_mem_head? hx
    have hxs : x ≠ ' ' := fun he => hhead (by rw [← he]; exact hx)
    exact ⟨plainChar_not_ws x (hall x hxm) hxs, hall x hxm, hxs⟩
  have hheadf : ∀ x, cs.head? = some x → isPyWs x = false ∧ x ≠ '-' ∧ x ≠ '•' := by
    intro x hx
    obtain ⟨hw, hplx, _⟩ := hheadfacts x hx
    refine ⟨hw, fun he => ?_, fun he => ?_⟩ <;> rw [he] at hplx <;>
      exact Bool.true_eq_false.mp (by simpa [isPlainChar] using hplx)
  have hheadg : ∀ x, cs.head? = some x →
      isPyWs x = false ∧ x.isDigit = false ∧ x ≠ '.' := by
    intro x hx
    obtain ⟨hw, hplx, _⟩ := hheadfacts x hx
    refine ⟨hw, ?_, fun he => ?_⟩
    · by_contra hdig
      have hdig' : x.isDigit = true := by
        cases hq : x.isDigit
        · exact absurd hq hdig
        · rfl
      have hge : 'a' ≤ x ∧ x ≤ 'z' := by
        have := hplx
        simp [isPlainChar] at this
        rcases this with h' | h'
        · exact h'
        · exact absurd h' (by
            intro hsp
            rw [hsp] at hdig'
            exact Bool.false_ne_true (by simpa using hdig'))
      unfold Char.isDigit at hdig'
      simp only [Bool.and_eq_true, decide_eq_true_eq] at hdig'
      have h1 : ('a' : Char) ≤ x := hge.1
      have h2 : x ≤ '9' := hdig'.2
      have := le_trans h1 h2
      exact absurd this (by decide)
    · rw [he] at hplx
      exact Bool.true_eq_false.mp (by simpa [isPlainChar] using hplx)
  have hkeep : tts_line_kept cs = true :=
    tts_line_kept_plain cs ⟨hne, hall, hhead, hlast, hds⟩ hva hss
  have hheadws : ∀ x, cs.head? = some x → isPyWs x = false :=
    fun x hx => (hheadfacts x hx).1
  have hlastws : ∀ x, cs.getLast? = some x → isPyWs x = false := by
    intro x hx
    have hxm : x ∈ cs := List.mem_of_getLast?_eq_some hx
    refine plainChar_not_ws x (hall x hxm) (fun he => hlast ?_)
    rw [← he]; exact hx
  unfold clean_segment_content_for_tts
  dsimp only
  rw [removeTimeStamps_id cs hnb, removeMinuteRanges_id cs hnb, removeBrackets_id cs hnb,
    removeBold_id cs hna, removeItalics_id cs hna, removeHashes_id cs hnh,
    removeBullets_id cs hnn hheadf, removeNumLists_id cs hnn hheadg,
    collapseBlankLines_id cs hnn, collapseSpaces_id cs hds, tabsToSpaces_id cs hnt,
    splitChar_no_sep '\n' cs hnn]
  have hfil : List.filter tts_line_kept [cs] = [cs] := by simp [hkeep]
  rw [hfil]
  have hint : List.intercalate ['\n'] [cs] = cs := by
    simp [List.intercalate]
  rw [hint]
  exact pyStrip_id cs hheadws hlastws

/-- C8 (amended): the content cleaner is idempotent on already-clean plain
text — a non-empty single line of lowercase words separated by single spaces
that does not mention `visual aid` or `show slide`.  Full idempotence fails:
on `a \t b` the tab is converted to a space only after space runs were
collapsed, so a second clean changes the result (see the counterexample). -/
theorem clean_idempotent_on_plain (cs : List Char) (hplain : PlainLine cs)
    (hva : containsSub "visual aid".data (pyLower cs) = false)
    (hss : containsSub "show slide".data (pyLower cs) = false) :
    clean_segment_content_for_tts (clean_segment_content_for_tts cs)
      = clean_segment_content_for_tts cs := by
  have h := clean_plain_id cs hplain hva hss
  rw [h, h]

/-- Witness for C8 (amended) at `hello world`. -/
theorem clean_idempotent_on_plain_witness :
    clean_segment_content_for_tts (clean_segment_content_for_tts "hello world".data)
      = clean_segment_content_for_tts "hello world".data :=
  clean_idempotent_on_plain "hello world".data
    ⟨by decide, by decide, by decide, by decide, by decide⟩ (by decide) (by decide)

end KnodemyAgent
